import Mathlib

/-!
Verification development for the cascadia CSS-selector library.

The Go source is embedded shallowly: Go strings are lists of characters
(the parser is byte-oriented; characters stand in for bytes), Go ints are
Lean Int (counters that cannot overflow are Nat), the uint8 components of
Specificity wrap modulo 256, and fallible parsing returns an explicit
result type.  html.Node pointers are modelled with a zipper: a node
together with the stack of parent frames, each frame recording the parent
data and the left/right sibling lists, which makes Parent, PrevSibling and
pointer-identity comparisons of a node with its siblings expressible.
-/

namespace Cascadia

/-! ## Characters and strings -/

/-- Form-feed character, written in Go as a backslash f escape. -/
def ffChar : Char := Char.ofNat 12

/-- Go unicode.IsSpace restricted to the ASCII whitespace used by the source. -/
def goSpace (c : Char) : Bool :=
  c == ' ' || c == '\t' || c == '\r' || c == '\n' || c == ffChar

/-- Lowercase a single ASCII capital letter, leave everything else alone. -/
def lowerChar (c : Char) : Char :=
  if 'A' ≤ c && c ≤ 'Z' then Char.ofNat (c.toNat + 32) else c

/-- toLowerASCII returns s with all ASCII capital letters lowercased. -/
def toLowerASCII (s : String) : String :=
  String.mk (s.data.map lowerChar)

/-- Does the character list start with the given pattern (strings.HasPrefix). -/
def listStartsWith : List Char → List Char → Bool
  | _, [] => true
  | [], _ :: _ => false
  | c :: cs, p :: ps => c == p && listStartsWith cs ps

/-- strings.Contains on character lists: some suffix starts with the pattern. -/
def listContains : List Char → List Char → Bool
  | hay, needle =>
    match hay with
    | [] => needle.isEmpty
    | _ :: rest => listStartsWith hay needle || listContains rest needle

/-- strings.Contains on strings. -/
def strContains (hay needle : String) : Bool :=
  listContains hay.data needle.data

/-- strings.HasPrefix on strings. -/
def strStartsWith (s pre : String) : Bool :=
  listStartsWith s.data pre.data

/-- strings.HasSuffix on strings. -/
def strEndsWith (s suf : String) : Bool :=
  listStartsWith s.data.reverse suf.data.reverse

/-- True when strings.TrimSpace would return the empty string. -/
def trimSpaceEmpty (s : String) : Bool :=
  s.data.all goSpace

/-- strings.ToLower restricted to ASCII (the source never relies on
non-ASCII folding in a claim-relevant way). -/
def strToLower (s : String) : String := toLowerASCII s

/-! ## Node model

html.Node has a type, the Data string (tag name for elements, text for
text nodes), an attribute list and child/sibling/parent links.  Nodes are
rose trees; a node occurrence inside a document is a NodeLoc: the node
plus a stack of frames, each frame holding the parent node data and the
siblings to the left (nearest first) and right of the occurrence. -/

inductive NType where
  | ErrorN
  | TextN
  | DocumentN
  | ElementN
  | CommentN
  | DoctypeN
deriving DecidableEq, Repr

inductive Node where
  | mk : NType → String → List (String × String) → List Node → Node

def Node.type : Node → NType
  | .mk t _ _ _ => t

def Node.data : Node → String
  | .mk _ d _ _ => d

def Node.attr : Node → List (String × String)
  | .mk _ _ a _ => a

def Node.children : Node → List Node
  | .mk _ _ _ cs => cs

/-- One step of context: the data of the parent node and the siblings on
either side of the occurrence (left is nearest-first). -/
structure Frame where
  ptype : NType
  pdata : String
  pattr : List (String × String)
  left : List Node
  right : List Node

/-- A node occurrence: the node and the stack of enclosing frames. -/
structure NodeLoc where
  node : Node
  path : List Frame

/-- Rebuild the parent node of an occurrence; none at the root
(corresponds to a nil Parent pointer). -/
def NodeLoc.parent? : NodeLoc → Option NodeLoc
  | ⟨_, []⟩ => none
  | ⟨n, f :: fs⟩ =>
    some ⟨Node.mk f.ptype f.pdata f.pattr (f.left.reverse ++ n :: f.right), fs⟩

/-- A matcher is the Match method of the Go Matcher interface: a predicate
on node occurrences. -/
abbrev Matcher := NodeLoc → Bool

/-- Locations of the preceding siblings of an occurrence, nearest first
(the walk n.PrevSibling, n.PrevSibling.PrevSibling, ...). -/
def prevLocsGo (pt : NType) (pd : String) (pa : List (String × String))
    (path : List Frame) : List Node → List Node → List NodeLoc
  | [], _ => []
  | l :: ls, right => ⟨l, ⟨pt, pd, pa, ls, right⟩ :: path⟩ :: prevLocsGo pt pd pa path ls (l :: right)

def NodeLoc.prevLocs : NodeLoc → List NodeLoc
  | ⟨_, []⟩ => []
  | ⟨n, f :: fs⟩ => prevLocsGo f.ptype f.pdata f.pattr fs f.left (n :: f.right)

/-- Locations of the children of an occurrence, in order (the walk
n.FirstChild, .NextSibling, ...). -/
def childLocsGo (pt : NType) (pd : String) (pa : List (String × String))
    (path : List Frame) : List Node → List Node → List NodeLoc
  | _, [] => []
  | left, c :: rest => ⟨c, ⟨pt, pd, pa, left, rest⟩ :: path⟩ :: childLocsGo pt pd pa path (c :: left) rest

def NodeLoc.childLocs (loc : NodeLoc) : List NodeLoc :=
  childLocsGo loc.node.type loc.node.data loc.node.attr loc.path [] loc.node.children

/-! ## Attribute matchers (source: the selector implementation) -/

/-- Scan of the attribute list inside matchAttribute. -/
def matchAttrGo (key : String) (f : String → Bool) : List (String × String) → Bool
  | [] => false
  | a :: rest => if a.1 == key && f a.2 then true else matchAttrGo key f rest

/-- matchAttribute: the node is an element and some attribute named key
satisfies f. -/
def matchAttribute (loc : NodeLoc) (key : String) (f : String → Bool) : Bool :=
  if loc.node.type != .ElementN then false
  else matchAttrGo key f loc.node.attr

/-- Scan of the attribute list inside attributeNotEqualMatch. -/
def attrNotEqGo (key val : String) : List (String × String) → Bool
  | [] => true
  | a :: rest => if a.1 == key && a.2 == val then false else attrNotEqGo key val rest

/-- attributeNotEqualMatch: elements where the attribute named key does
not have the value val. -/
def attributeNotEqualMatch (key val : String) (loc : NodeLoc) : Bool :=
  if loc.node.type != .ElementN then false
  else attrNotEqGo key val loc.node.attr

/-- Split at the first whitespace character (strings.IndexAny with the
five CSS whitespace characters): the part before it and, when found, the
part after it. -/
def splitSpace : List Char → List Char × Option (List Char)
  | [] => ([], none)
  | c :: rest =>
    if goSpace c then ([], some rest)
    else
      let r := splitSpace rest
      (c :: r.1, r.2)

theorem splitSpace_some_lt :
    ∀ (l pre post : List Char), splitSpace l = (pre, some post) → post.length < l.length := by
  intro l
  induction l with
  | nil => intro pre post h; simp [splitSpace] at h
  | cons c rest ih =>
    intro pre post h
    simp only [splitSpace] at h
    split at h
    · obtain ⟨-, h2⟩ := Prod.mk.injEq .. ▸ h
      obtain rfl : rest = post := by simpa using h2
      simp
    · obtain ⟨-, h2⟩ := Prod.mk.injEq .. ▸ h
      have hr : splitSpace rest = ((splitSpace rest).1, some post) := by
        cases hs : splitSpace rest with
        | mk a b => simp only [hs] at h2 ⊢; simpa using h2
      have := ih (splitSpace rest).1 post hr
      simp only [List.length_cons]
      omega

/-- matchInclude: s is a whitespace-separated list that includes val. -/
def matchIncludeL (val : List Char) : List Char → Bool
  | [] => false
  | c :: rest =>
    match h : splitSpace (c :: rest) with
    | (pre, none) => pre == val
    | (pre, some post) => pre == val || matchIncludeL val post
termination_by l => l.length
decreasing_by
  exact splitSpace_some_lt _ _ _ h

def matchInclude (val s : String) : Bool := matchIncludeL val.data s.data

/-- attributeDashMatch value predicate: s equals val or starts with val
plus a hyphen. -/
def dashMatchVal (val s : List Char) : Bool :=
  if s == val then true
  else if s.length ≤ val.length then false
  else if listStartsWith s val && s.get? val.length == some '-' then true
  else false

def attributeDashMatch (key val : String) (loc : NodeLoc) : Bool :=
  matchAttribute loc key fun s => dashMatchVal val.data s.data

/-- attributePrefixMatch: attribute starts with val; an all-whitespace
value never matches. -/
def attributePrefixMatch (key val : String) (loc : NodeLoc) : Bool :=
  matchAttribute loc key fun s =>
    if trimSpaceEmpty s then false else strStartsWith s val

def attributeSuffixMatch (key val : String) (loc : NodeLoc) : Bool :=
  matchAttribute loc key fun s =>
    if trimSpaceEmpty s then false else strEndsWith s val

def attributeSubstringMatch (key val : String) (loc : NodeLoc) : Bool :=
  matchAttribute loc key fun s =>
    if trimSpaceEmpty s then false else strContains s val

/-- A compiled regular expression, carrying its source pattern. -/
structure Regexp where
  pattern : String
deriving DecidableEq, Repr

/-- Modelled from the spec: the regular-expression engine is the external
Go regexp package, outside this repository; no claim depends on its
matching behaviour, so it is left abstract (constantly false). -/
def Regexp.MatchString (_ : Regexp) (_ : String) : Bool := false

def attributeRegexMatch (key : String) (rx : Regexp) (loc : NodeLoc) : Bool :=
  matchAttribute loc key fun s => rx.MatchString s

/-! ## Text extraction and the contains/matches pseudo-classes -/

mutual
/-- writeNodeText: the text contained in n and its descendants. -/
def writeNodeText : Node → String
  | .mk t d _ cs =>
    match t with
    | .TextN => d
    | .ElementN => writeNodeTextList cs
    | _ => ""

def writeNodeTextList : List Node → String
  | [] => ""
  | c :: cs => writeNodeText c ++ writeNodeTextList cs
end

def nodeText (n : Node) : String := writeNodeText n

def ownTextGo : List Node → String
  | [] => ""
  | c :: cs => (if c.type == .TextN then c.data else "") ++ ownTextGo cs

/-- nodeOwnText: the contents of the text nodes that are direct children. -/
def nodeOwnText (n : Node) : String := ownTextGo n.children

/-- containsPseudoClassSelector.Match: case-folded substring test against
the full or own text of the node. -/
def containsMatch (own : Bool) (value : String) (loc : NodeLoc) : Bool :=
  let text := if own then strToLower (nodeOwnText loc.node) else strToLower (nodeText loc.node)
  strContains text value

/-- regexpPseudoClassSelector.Match. -/
def regexpMatchText (own : Bool) (rx : Regexp) (loc : NodeLoc) : Bool :=
  let text := if own then nodeOwnText loc.node else nodeText loc.node
  rx.MatchString text

/-! ## Structural pseudo-classes -/

/-- The sibling-scanning loop of nthChildMatch.  npos is the position of
the node n in the child list (pointer identity with n), j the current
position, count and i as in the source. -/
def nthLoopGo (ofType : Bool) (nd : String) (npos : Nat) (last : Bool) :
    List Node → Nat → Nat → Int → Int × Nat
  | [], _, count, i => (i, count)
  | c :: rest, j, count, i =>
    if c.type != .ElementN || (ofType && c.data != nd) then
      nthLoopGo ofType nd npos last rest (j + 1) count i
    else
      if j == npos then
        if !last then (((count + 1 : Nat) : Int), count + 1)
        else nthLoopGo ofType nd npos last rest (j + 1) (count + 1) ((count + 1 : Nat) : Int)
      else nthLoopGo ofType nd npos last rest (j + 1) (count + 1) i

/-- nthChildMatch implements nth-child(an+b), and the last/of-type
variants. -/
def nthChildMatch (a b : Int) (last ofType : Bool) (loc : NodeLoc) : Bool :=
  if loc.node.type != .ElementN then false
  else match loc.path with
  | [] => false
  | f :: _ =>
    if f.ptype == .DocumentN then false
    else
      let sibs := f.left.reverse ++ loc.node :: f.right
      let npos := f.left.length
      let r := nthLoopGo ofType loc.node.data npos last sibs 0 0 (-1)
      if r.1 == -1 then false
      else
        let i := if last then (r.2 : Int) - r.1 + 1 else r.1
        let i := i - b
        if a == 0 then i == 0
        else i.tmod a == 0 && 0 ≤ i.tdiv a

/-- The scanning loop shared by simpleNthChildMatch and
simpleNthLastChildMatch (the latter feeds the reversed direction). -/
def simpleNthLoopGo (ofType : Bool) (nd : String) (npos : Nat) (b : Int) :
    List Node → Nat → Nat → Bool
  | [], _, _ => false
  | c :: rest, j, count =>
    if c.type != .ElementN || (ofType && c.data != nd) then
      simpleNthLoopGo ofType nd npos b rest (j + 1) count
    else
      if j == npos then ((count + 1 : Nat) : Int) == b
      else if b ≤ ((count + 1 : Nat) : Int) then false
      else simpleNthLoopGo ofType nd npos b rest (j + 1) (count + 1)

/-- simpleNthChildMatch implements nth-child(b) (a = 0). -/
def simpleNthChildMatch (b : Int) (ofType : Bool) (loc : NodeLoc) : Bool :=
  if loc.node.type != .ElementN then false
  else match loc.path with
  | [] => false
  | f :: _ =>
    if f.ptype == .DocumentN then false
    else
      simpleNthLoopGo ofType loc.node.data f.left.length b
        (f.left.reverse ++ loc.node :: f.right) 0 0

/-- simpleNthLastChildMatch implements nth-last-child(b): the same loop
starting from LastChild and walking PrevSibling. -/
def simpleNthLastChildMatch (b : Int) (ofType : Bool) (loc : NodeLoc) : Bool :=
  if loc.node.type != .ElementN then false
  else match loc.path with
  | [] => false
  | f :: _ =>
    if f.ptype == .DocumentN then false
    else
      simpleNthLoopGo ofType loc.node.data f.right.length b
        (f.right.reverse ++ loc.node :: f.left) 0 0

/-- Counting loop of the only-child matcher. -/
def onlyChildCountGo (ofType : Bool) (nd : String) : List Node → Nat → Bool
  | [], count => count == 1
  | c :: rest, count =>
    if c.type != .ElementN || (ofType && c.data != nd) then
      onlyChildCountGo ofType nd rest count
    else
      let count := count + 1
      if 1 < count then false else onlyChildCountGo ofType nd rest count

/-- onlyChildPseudoClassSelector.Match. -/
def onlyChildMatch (ofType : Bool) (loc : NodeLoc) : Bool :=
  if loc.node.type != .ElementN then false
  else match loc.path with
  | [] => false
  | f :: _ =>
    if f.ptype == .DocumentN then false
    else onlyChildCountGo ofType loc.node.data (f.left.reverse ++ loc.node :: f.right) 0

/-- inputPseudoClassSelector.Match. -/
def inputMatch (loc : NodeLoc) : Bool :=
  loc.node.type == .ElementN &&
    (loc.node.data == "input" || loc.node.data == "select" ||
     loc.node.data == "textarea" || loc.node.data == "button")

def emptyGo : List Node → Bool
  | [] => true
  | c :: cs =>
    match c.type with
    | .ElementN => false
    | .TextN => false
    | _ => emptyGo cs

/-- emptyElementPseudoClassSelector.Match. -/
def emptyElementMatch (loc : NodeLoc) : Bool :=
  if loc.node.type != .ElementN then false
  else emptyGo loc.node.children

/-- rootPseudoClassSelector.Match. -/
def rootMatch (loc : NodeLoc) : Bool :=
  if loc.node.type != .ElementN then false
  else match loc.path with
    | [] => false
    | f :: _ => f.ptype == .DocumentN

/-! ## Relative pseudo-classes and combinators -/

/-- hasChildMatch: some child matches a. -/
def hasChildMatch (loc : NodeLoc) (a : Matcher) : Bool :=
  loc.childLocs.any a

theorem Node.sizeOf_children_lt (c : Node) : sizeOf c.children < sizeOf c := by
  cases c with
  | mk t d a cs => simp [Node.children]

/-- Child scan of hasDescendantMatch: test each child against a and
recurse into element children. -/
def hasDescGo (a : Matcher) (pt : NType) (pd : String) (pa : List (String × String))
    (path : List Frame) (left : List Node) (l : List Node) : Bool :=
  match l with
  | [] => false
  | c :: rest =>
    let cl : NodeLoc := ⟨c, ⟨pt, pd, pa, left, rest⟩ :: path⟩
    (a cl || (c.type == .ElementN &&
        hasDescGo a c.type c.data c.attr (⟨pt, pd, pa, left, rest⟩ :: path) [] c.children)) ||
      hasDescGo a pt pd pa path (c :: left) rest
termination_by sizeOf l
decreasing_by
  all_goals
    first
      | exact Nat.lt_of_lt_of_le (Node.sizeOf_children_lt _)
          (by simp only [List.cons.sizeOf_spec]; omega)
      | (simp only [List.cons.sizeOf_spec]; omega)

/-- hasDescendantMatch: depth-first search for a descendant matching a. -/
def hasDescendantMatch (loc : NodeLoc) (a : Matcher) : Bool :=
  hasDescGo a loc.node.type loc.node.data loc.node.attr loc.path [] loc.node.children

/-- The ancestor walk of descendantMatch (for p := n.Parent; p != nil ...). -/
def ancestorAnyGo (a : Matcher) : Node → List Frame → Bool
  | _, [] => false
  | n, f :: fs =>
    let p : NodeLoc := ⟨Node.mk f.ptype f.pdata f.pattr (f.left.reverse ++ n :: f.right), fs⟩
    a p || ancestorAnyGo a p.node fs

/-- descendantMatch: matches d and has an ancestor matching a. -/
def descendantMatch (a d : Matcher) (loc : NodeLoc) : Bool :=
  if !(d loc) then false
  else ancestorAnyGo a loc.node loc.path

/-- childMatch: matches d and the parent matches a. -/
def childMatch (a d : Matcher) (loc : NodeLoc) : Bool :=
  d loc &&
    match loc.parent? with
    | some p => a p
    | none => false

/-- Backward walk of the adjacent-sibling case: text and comment nodes
are skipped; the first other sibling is the one tested. -/
def siblingAdjGo (s1 : Matcher) : List NodeLoc → Bool
  | [] => false
  | l :: rest =>
    if l.node.type == .TextN || l.node.type == .CommentN then siblingAdjGo s1 rest
    else s1 l

/-- Backward walk of the general-sibling case: every preceding sibling is
tested. -/
def siblingGenGo (s1 : Matcher) : List NodeLoc → Bool
  | [] => false
  | l :: rest => s1 l || siblingGenGo s1 rest

/-- siblingMatch: matches s2 and is preceded by a sibling matching s1;
with adjacent set, only the nearest non-text non-comment sibling is
tested. -/
def siblingMatch (s1 s2 : Matcher) (adjacent : Bool) (loc : NodeLoc) : Bool :=
  if !(s2 loc) then false
  else if adjacent then siblingAdjGo s1 loc.prevLocs
  else siblingGenGo s1 loc.prevLocs

/-! ## Compound selectors and specificity -/

/-- compoundSelector with its optional pseudo-element name. -/
structure compoundSelector where
  selectors : List Matcher
  pseudoElement : String

/-- compoundSelector.Match: with no sub-selectors the candidate must be
an element node; otherwise every sub-selector must match. -/
def compoundSelector.Match (t : compoundSelector) (loc : NodeLoc) : Bool :=
  if t.selectors.isEmpty then loc.node.type == .ElementN
  else t.selectors.all fun sel => sel loc

/-- Specificity with the convention [A,B,C]; the components are uint8 in
the source, so addition wraps modulo 256. -/
structure Specificity where
  s0 : Nat
  s1 : Nat
  s2 : Nat
deriving DecidableEq, Repr

/-- Specificity.Less: strict lexicographic comparison. -/
def Specificity.Less (s other : Specificity) : Bool :=
  if s.s0 < other.s0 then true
  else if other.s0 < s.s0 then false
  else if s.s1 < other.s1 then true
  else if other.s1 < s.s1 then false
  else if s.s2 < other.s2 then true
  else if other.s2 < s.s2 then false
  else false

def Specificity.add (s other : Specificity) : Specificity :=
  ⟨(s.s0 + other.s0) % 256, (s.s1 + other.s1) % 256, (s.s2 + other.s2) % 256⟩

/-- One parsed alternative of a selector group: the match closure (nil
when only a pseudo-element was seen), the pseudo-element name and the
accumulated specificity.  This is the oneSelector record used by the
parser snapshot; its field set is reconstructed from its uses
(sel.match, sel.PseudoElement, sel.Specificity). -/
structure OneSelector where
  matchFn : Option Matcher := none
  PseudoElement : String := ""
  Spec : Specificity := ⟨0, 0, 0⟩

/-- Application of a possibly-nil Go function value; the none case is a
nil-function call, unreachable at every use site below. -/
def getM : Option Matcher → Matcher
  | some f => f
  | none => fun _ => false

/-- maximumSpecificity over the alternatives of a selector group. -/
def maximumSpecificity (s : List OneSelector) : Specificity :=
  s.foldl (fun out sel => if out.Less sel.Spec then sel.Spec else out) ⟨0, 0, 0⟩

/-! ## Selector constructors used by the parser

The bodies are the corresponding Match implementations from the sources;
the constructors lowercase attribute keys and tag names once at build
time, as the in-source closure constructors do. -/

/-- typeSelector as a oneSelector: tag match (tagSelector.Match) with the
type-selector specificity of tagSelector.Specificity. -/
def typeSelector (tag : String) : OneSelector :=
  let tag := toLowerASCII tag
  { matchFn := some fun loc => loc.node.type == .ElementN && loc.node.data == tag
    Spec := ⟨0, 0, 1⟩ }

def attributeExistsSelector (key : String) : Matcher :=
  let key := toLowerASCII key
  fun loc => matchAttribute loc key fun _ => true

def attributeEqualsSelector (key val : String) : Matcher :=
  let key := toLowerASCII key
  fun loc => matchAttribute loc key fun s => s == val

def attributeNotEqualSelector (key val : String) : Matcher :=
  let key := toLowerASCII key
  fun loc => attributeNotEqualMatch key val loc

def attributeIncludesSelector (key val : String) : Matcher :=
  let key := toLowerASCII key
  fun loc => matchAttribute loc key fun s => matchInclude val s

def attributeDashmatchSelector (key val : String) : Matcher :=
  let key := toLowerASCII key
  fun loc => attributeDashMatch key val loc

def attributePrefixSelector (key val : String) : Matcher :=
  let key := toLowerASCII key
  fun loc => attributePrefixMatch key val loc

def attributeSuffixSelector (key val : String) : Matcher :=
  let key := toLowerASCII key
  fun loc => attributeSuffixMatch key val loc

def attributeSubstringSelector (key val : String) : Matcher :=
  let key := toLowerASCII key
  fun loc => attributeSubstringMatch key val loc

def attributeRegexSelector (key : String) (rx : Regexp) : Matcher :=
  let key := toLowerASCII key
  fun loc => attributeRegexMatch key rx loc

/-- negatedSelector: elements that do not match a. -/
def negatedSelector (a : Matcher) : Matcher := fun loc =>
  if loc.node.type != .ElementN then false else !(a loc)

def hasChildSelector (a : Matcher) : Matcher := fun loc =>
  if loc.node.type != .ElementN then false else hasChildMatch loc a

def hasDescendantSelector (a : Matcher) : Matcher := fun loc =>
  if loc.node.type != .ElementN then false else hasDescendantMatch loc a

def textSubstrSelector (val : String) : Matcher := fun loc => containsMatch false val loc

def ownTextSubstrSelector (val : String) : Matcher := fun loc => containsMatch true val loc

def textRegexSelector (rx : Regexp) : Matcher := fun loc => regexpMatchText false rx loc

def ownTextRegexSelector (rx : Regexp) : Matcher := fun loc => regexpMatchText true rx loc

def simpleNthChildSelector (b : Int) (ofType : Bool) : Matcher := fun loc =>
  simpleNthChildMatch b ofType loc

def simpleNthLastChildSelector (b : Int) (ofType : Bool) : Matcher := fun loc =>
  simpleNthLastChildMatch b ofType loc

def nthChildSelector (a b : Int) (last ofType : Bool) : Matcher := fun loc =>
  nthChildMatch a b last ofType loc

def onlyChildSelector (ofType : Bool) : Matcher := fun loc => onlyChildMatch ofType loc

def inputSelector : Matcher := inputMatch

def emptyElementSelector : Matcher := emptyElementMatch

def rootSelector : Matcher := rootMatch

/-- intersectionSelector: nodes that match both a and b. -/
def intersectionSelector (a b : Matcher) : Matcher := fun loc => a loc && b loc

/-- Modelled from the spec: unionMatch of a parsed selector group is
missing from the sources; a group matches iff one of its comma-separated
alternatives matches (OR semantics of the Selector Group). -/
def unionMatch (sels : List OneSelector) : Matcher := fun loc =>
  sels.any fun s => getM s.matchFn loc

def descendantSelector (a d : Matcher) : Matcher := fun loc => descendantMatch a d loc

def childSelector (a d : Matcher) : Matcher := fun loc => childMatch a d loc

def siblingSelector (s1 s2 : Matcher) (adjacent : Bool) : Matcher := fun loc =>
  siblingMatch s1 s2 adjacent loc

/-! ## Lexical layer of the parser

The parser state (source text plus position) is embedded as the list of
characters not yet consumed; reaching position len corresponds to the
empty list.  The crash constructor is a Go runtime panic (an index out of
range), distinct from the typed error return. -/

inductive PRes (α : Type) where
  | ok (rest : List Char) (val : α)
  | err (msg : String)
  | crash (msg : String)
  | fuel

def hexDigit (c : Char) : Bool :=
  ('0' ≤ c && c ≤ '9') || ('a' ≤ c && c ≤ 'f') || ('A' ≤ c && c ≤ 'F')

/-- nameStart: first character of an identifier (besides hyphen/escape). -/
def nameStart (c : Char) : Bool :=
  ('a' ≤ c && c ≤ 'z') || ('A' ≤ c && c ≤ 'Z') || c == '_' || 127 < c.toNat

/-- nameChar: a character within an identifier (besides escapes). -/
def nameChar (c : Char) : Bool :=
  ('a' ≤ c && c ≤ 'z') || ('A' ≤ c && c ≤ 'Z') || c == '_' || 127 < c.toNat ||
    c == '-' || ('0' ≤ c && c ≤ '9')

def isDigit (c : Char) : Bool := '0' ≤ c && c ≤ '9'

/-- Take up to n leading hex digits (the source reads at most five after
the backslash: the loop bound is p.i+6 starting at p.i+1). -/
def takeHexRun : Nat → List Char → List Char × List Char
  | 0, l => ([], l)
  | _ + 1, [] => ([], [])
  | n + 1, c :: rest =>
    if hexDigit c then
      let r := takeHexRun n rest
      (c :: r.1, r.2)
    else ([], c :: rest)

def hexDigitVal (c : Char) : Nat :=
  if '0' ≤ c && c ≤ '9' then c.toNat - '0'.toNat
  else if 'a' ≤ c && c ≤ 'f' then c.toNat - 'a'.toNat + 10
  else if 'A' ≤ c && c ≤ 'F' then c.toNat - 'A'.toNat + 10
  else 0

def hexVal (ds : List Char) : Nat :=
  ds.foldl (fun acc c => 16 * acc + hexDigitVal c) 0

/-- Go conversion string(rune(v)): surrogate code points become the
replacement character (five hex digits keep v below 0x100000, so no other
invalid values arise). -/
def runeToChar (v : Nat) : Char :=
  if 0xD800 ≤ v && v ≤ 0xDFFF then Char.ofNat 0xFFFD else Char.ofNat v

/-- Optional single whitespace (or CR-LF pair) consumed after a hex
escape, per the escape-termination rule. -/
def dropEscapeWs (l : List Char) : List Char :=
  match l with
  | '\r' :: '\n' :: t => t
  | '\r' :: t => t
  | d :: t => if d == ' ' || d == '\t' || d == '\n' || d == ffChar then t else l
  | [] => l

theorem dropEscapeWs_length_le (l : List Char) : (dropEscapeWs l).length ≤ l.length := by
  rw [dropEscapeWs.eq_def]
  split
  · simp only [List.length_cons]; omega
  · simp only [List.length_cons]; omega
  · split
    · simp only [List.length_cons]; omega
    · exact le_refl _
  · exact le_refl _

/-- parseEscape parses a backslash escape. -/
def parseEscape (rest : List Char) : PRes String :=
  match rest with
  | b :: c :: rs =>
    if b != '\\' then .err "invalid escape sequence"
    else if c == '\r' || c == '\n' || c == ffChar then
      .err "escaped line ending outside string"
    else if hexDigit c then
      let r := takeHexRun 5 (c :: rs)
      .ok (dropEscapeWs r.2) (String.mk [runeToChar (hexVal r.1)])
    else
      .ok rs (String.mk [c])
  | _ => .err "invalid escape sequence"

theorem takeHexRun_suffix_length : ∀ n l, (takeHexRun n l).2.length ≤ l.length := by
  intro n
  induction n with
  | zero => intro l; simp [takeHexRun]
  | succ n ih =>
    intro l
    cases l with
    | nil => simp [takeHexRun]
    | cons c rest =>
      simp only [takeHexRun]
      split
      · have := ih rest
        simp only [List.length_cons]
        omega
      · simp

theorem parseEscape_ok_length {rest rest' : List Char} {v : String}
    (h : parseEscape rest = .ok rest' v) : rest'.length < rest.length := by
  match rest with
  | [] => simp [parseEscape] at h
  | [b] => simp [parseEscape] at h
  | b :: c :: rs =>
    simp only [parseEscape] at h
    split at h
    · simp at h
    · split at h
      · simp at h
      · split at h
        · rename_i hne hle hhex
          injection h with h1 h2
          subst h1
          have h4 : (takeHexRun 5 (c :: rs)).2.length ≤ rs.length := by
            simp only [takeHexRun, hhex, if_pos]
            exact takeHexRun_suffix_length 4 rs
          have h5 := dropEscapeWs_length_le (takeHexRun 5 (c :: rs)).2
          simp only [List.length_cons]
          omega
        · injection h with h1 h2
          subst h1
          simp only [List.length_cons]
          omega

theorem length_dropWhile_le (p : Char → Bool) :
    ∀ l : List Char, (l.dropWhile p).length ≤ l.length := by
  intro l
  induction l with
  | nil => simp
  | cons c rest ih =>
    simp only [List.dropWhile]
    split
    · simp only [List.length_cons]; omega
    · simp

theorem dropWhile_cons_length_lt (p : Char → Bool) (c : Char) (l : List Char)
    (h : p c = true) :
    (List.dropWhile p (c :: l)).length < (c :: l).length := by
  simp only [List.dropWhile, h]
  have := length_dropWhile_le p l
  simp only [List.length_cons]
  omega

/-- The loop of parseName: runs of name characters and escapes, with the
result accumulated.  Recursion is on a step counter initialized to the
input length plus one; every iteration consumes at least one character,
so the counter never runs out before the input does. -/
def parseNameLoop : Nat → String → List Char → PRes String
  | 0, acc, rest =>
    if acc == "" then .err "expected name, found EOF instead" else .ok rest acc
  | fuelN + 1, acc, rest =>
    match rest with
    | [] => if acc == "" then .err "expected name, found EOF instead" else .ok [] acc
    | c :: rs =>
      if nameChar c then
        parseNameLoop fuelN (acc ++ String.mk ((c :: rs).takeWhile nameChar))
          ((c :: rs).dropWhile nameChar)
      else if c == '\\' then
        match parseEscape (c :: rs) with
        | .ok rest' val => parseNameLoop fuelN (acc ++ val) rest'
        | .err m => .err m
        | .crash m => .crash m
        | .fuel => .fuel
      else
        if acc == "" then .err "expected name, found EOF instead" else .ok (c :: rs) acc

/-- parseName parses a name (no restriction on the first character). -/
def parseName (rest : List Char) : PRes String :=
  parseNameLoop (rest.length + 1) "" rest

/-- parseIdentifier parses an identifier (optional leading hyphen, then a
name whose first character is a name-start character or an escape). -/
def parseIdentifier (rest : List Char) : PRes String :=
  let startingDash := match rest with
    | '-' :: _ => true
    | _ => false
  let rest := if startingDash then rest.tail else rest
  match rest with
  | [] => .err "expected identifier, found EOF instead"
  | c :: _ =>
    if !(nameStart c || c == '\\') then .err "expected identifier, found wrong character"
    else
      match parseName rest with
      | .ok rest' result => .ok rest' (if startingDash then "-" ++ result else result)
      | e => e

/-- The scanning loop of parseString, after the opening quote.  The step
counter is initialized to the input length plus one; every iteration
consumes at least one character. -/
def parseStringLoop : Nat → Char → String → List Char → PRes String
  | 0, _, _, _ => .err "EOF in string"
  | fuelN + 1, quote, acc, rest =>
    match rest with
    | [] => .err "EOF in string"
    | c :: rs =>
      if c == '\\' then
        match rs with
        | '\r' :: '\n' :: t => parseStringLoop fuelN quote acc t
        | '\r' :: t => parseStringLoop fuelN quote acc t
        | d :: t =>
          if d == '\n' || d == ffChar then parseStringLoop fuelN quote acc t
          else
            match parseEscape (c :: d :: t) with
            | .ok rest' val => parseStringLoop fuelN quote (acc ++ val) rest'
            | .err m => .err m
            | .crash m => .crash m
            | .fuel => .fuel
        | [] => .err "invalid escape sequence"
      else if c == quote then .ok rs acc
      else if c == '\r' || c == '\n' || c == ffChar then
        .err "unexpected end of line in string"
      else
        let stop := fun d => d == quote || d == '\\' || d == '\r' || d == '\n' || d == ffChar
        parseStringLoop fuelN quote (acc ++ String.mk ((c :: rs).takeWhile (fun d => !stop d)))
          ((c :: rs).dropWhile (fun d => !stop d))

/-- parseString parses a single- or double-quoted string. -/
def parseString (rest : List Char) : PRes String :=
  match rest with
  | q :: c :: rs => parseStringLoop (rs.length + 2) q "" (c :: rs)
  | _ => .err "expected string, found EOF instead"

/-- The scan of parseRegex: raw text up to the first unmatched closing
parenthesis or bracket, which is not consumed. -/
def parseRegexLoop (acc : List Char) (opn : Nat) (rest : List Char) : PRes Regexp :=
  match rest with
  | [] => .err "EOF in regular expression"
  | c :: rs =>
    if c == '(' || c == '[' then parseRegexLoop (acc ++ [c]) (opn + 1) rs
    else if c == ')' || c == ']' then
      if opn == 0 then .ok (c :: rs) ⟨String.mk acc⟩
      else parseRegexLoop (acc ++ [c]) (opn - 1) rs
    else parseRegexLoop (acc ++ [c]) opn rs

/-- parseRegex parses a regular expression; the external compilation step
(regexp.Compile) is modelled as always succeeding. -/
def parseRegex (rest : List Char) : PRes Regexp :=
  match rest with
  | _ :: _ :: _ => parseRegexLoop [] 0 rest
  | _ => .err "expected regular expression, found EOF instead"

/-- Suffix after the terminating star-slash of a comment, if present. -/
def findCommentEnd : List Char → Option (List Char)
  | [] => none
  | '*' :: '/' :: t => some t
  | _ :: t => findCommentEnd t

theorem findCommentEnd_length : ∀ l t, findCommentEnd l = some t → t.length ≤ l.length := by
  intro l
  induction l with
  | nil => intro t h; simp [findCommentEnd] at h
  | cons c rest ih =>
    intro t h
    rw [findCommentEnd.eq_def] at h
    split at h
    · simp at h
    · rename_i t' heq
      injection heq with e1 e2
      injection h with h1
      subst h1
      subst e2
      simp only [List.length_cons]
      omega
    · rename_i x tail heq
      injection heq with e1 e2
      subst e2
      have := ih t h
      simp only [List.length_cons]
      omega

/-- The loop of skipWhitespace: whitespace characters and terminated
comments are consumed; the flag records whether anything was skipped.
The step counter is initialized to the input length plus one; every
iteration consumes at least one character. -/
def skipWhitespaceGo : Nat → Bool → List Char → Bool × List Char
  | 0, skipped, rest => (skipped, rest)
  | fuelN + 1, skipped, rest =>
    match rest with
    | [] => (skipped, [])
    | c :: rs =>
      if goSpace c then skipWhitespaceGo fuelN true rs
      else if c == '/' then
        match rs with
        | '*' :: rs2 =>
          match findCommentEnd rs2 with
          | some t => skipWhitespaceGo fuelN true t
          | none => (skipped, c :: rs)
        | _ => (skipped, c :: rs)
      else (skipped, c :: rs)

/-- skipWhitespace consumes whitespace characters and comments, returning
whether anything was skipped. -/
def skipWhitespace (rest : List Char) : Bool × List Char :=
  skipWhitespaceGo (rest.length + 1) false rest

/-- consumeParenthesis consumes an opening parenthesis plus following
whitespace. -/
def consumeParenthesis (rest : List Char) : Bool × List Char :=
  match rest with
  | '(' :: rs => (true, (skipWhitespace rs).2)
  | _ => (false, rest)

/-- consumeClosingParenthesis consumes preceding whitespace plus a closing
parenthesis, restoring the position on failure. -/
def consumeClosingParenthesis (rest : List Char) : Bool × List Char :=
  match (skipWhitespace rest).2 with
  | ')' :: rs => (true, rs)
  | _ => (false, rest)

/-- Numeric value of a digit run. -/
def digitsVal (ds : List Char) : Nat :=
  ds.foldl (fun acc c => 10 * acc + (c.toNat - '0'.toNat)) 0

/-- parseInteger parses a decimal integer; strconv.Atoi fails when the
value exceeds the 64-bit int range. -/
def parseInteger (rest : List Char) : PRes Nat :=
  let ds := rest.takeWhile isDigit
  let rest' := rest.dropWhile isDigit
  if ds.isEmpty then .err "expected integer, but did not find it"
  else if 9223372036854775807 < digitsVal ds then .err "integer out of range"
  else .ok rest' (digitsVal ds)

/-! ## The An+B micro-parser (parseNth)

The goto labels of the source become one definition per label; the state
carried between labels is the coefficient a. -/

def nthEof : PRes (Int × Int) :=
  .err "unexpected EOF while attempting to parse expression of form an+b"

def nthInvalid : PRes (Int × Int) :=
  .err "unexpected character while attempting to parse expression of form an+b"

/-- Label readN: after the n marker, an optional signed integer offset. -/
def nthReadN (a : Int) (rest : List Char) : PRes (Int × Int) :=
  match (skipWhitespace rest).2 with
  | [] => nthEof
  | c :: rs =>
    if c == '+' then
      match parseInteger (skipWhitespace rs).2 with
      | .ok rest' b => .ok rest' (a, (b : Int))
      | .err m => .err m
      | .crash m => .crash m
      | .fuel => .fuel
    else if c == '-' then
      match parseInteger (skipWhitespace rs).2 with
      | .ok rest' b => .ok rest' (a, -(b : Int))
      | .err m => .err m
      | .crash m => .crash m
      | .fuel => .fuel
    else .ok (c :: rs) (a, 0)

/-- Label readA: the integer already read is a if an n marker follows,
otherwise it was b all along. -/
def nthReadA (a : Int) (rest : List Char) : PRes (Int × Int) :=
  match rest with
  | [] => nthEof
  | c :: rs =>
    if c == 'n' || c == 'N' then nthReadN a rs
    else .ok (c :: rs) (0, a)

/-- Label positiveA: after an optional plus sign. -/
def nthPositiveA (rest : List Char) : PRes (Int × Int) :=
  match rest with
  | [] => nthEof
  | c :: rs =>
    if isDigit c then
      match parseInteger (c :: rs) with
      | .ok rest' a => nthReadA (a : Int) rest'
      | .err m => .err m
      | .crash m => .crash m
      | .fuel => .fuel
    else if c == 'n' || c == 'N' then nthReadN 1 rs
    else nthInvalid

/-- Label negativeA: after a minus sign. -/
def nthNegativeA (rest : List Char) : PRes (Int × Int) :=
  match rest with
  | [] => nthEof
  | c :: rs =>
    if isDigit c then
      match parseInteger (c :: rs) with
      | .ok rest' a => nthReadA (-(a : Int)) rest'
      | .err m => .err m
      | .crash m => .crash m
      | .fuel => .fuel
    else if c == 'n' || c == 'N' then nthReadN (-1) rs
    else nthInvalid

/-- parseNth parses the argument of the nth-child family (the An+B
micro-syntax, including the odd and even keywords). -/
def parseNth (rest : List Char) : PRes (Int × Int) :=
  match rest with
  | [] => nthEof
  | c :: rs =>
    if c == '-' then nthNegativeA rs
    else if c == '+' then nthPositiveA rs
    else if isDigit c then nthPositiveA (c :: rs)
    else if c == 'n' || c == 'N' then nthReadN 1 rs
    else if c == 'o' || c == 'O' || c == 'e' || c == 'E' then
      match parseName (c :: rs) with
      | .ok rest' id =>
        let id := toLowerASCII id
        if id == "odd" then .ok rest' (2, 1)
        else if id == "even" then .ok rest' (2, 0)
        else .err "expected odd or even"
      | .err m => .err m
      | .crash m => .crash m
      | .fuel => .fuel
    else nthInvalid

/-! ## Simple-selector clause parsers -/

/-- parseTypeSelector parses a type selector (match by tag name). -/
def parseTypeSelector (rest : List Char) : PRes OneSelector :=
  match parseIdentifier rest with
  | .ok rest' tag => .ok rest' (typeSelector tag)
  | .err m => .err m
  | .crash m => .crash m
  | .fuel => .fuel

/-- parseIDSelector: hash then a name; equality on the id attribute,
specificity (1,0,0). -/
def parseIDSelector (rest : List Char) : PRes OneSelector :=
  match rest with
  | [] => .err "expected id selector, found EOF instead"
  | c :: rs =>
    if c != '#' then .err "expected id selector"
    else
      match parseName rs with
      | .ok rest' id =>
        .ok rest' { matchFn := some (attributeEqualsSelector "id" id), Spec := ⟨1, 0, 0⟩ }
      | .err m => .err m
      | .crash m => .crash m
      | .fuel => .fuel

/-- parseClassSelector: dot then an identifier; includes-match on the
class attribute, specificity (0,1,0). -/
def parseClassSelector (rest : List Char) : PRes OneSelector :=
  match rest with
  | [] => .err "expected class selector, found EOF instead"
  | c :: rs =>
    if c != '.' then .err "expected class selector"
    else
      match parseIdentifier rs with
      | .ok rest' cls =>
        .ok rest' { matchFn := some (attributeIncludesSelector "class" cls), Spec := ⟨0, 1, 0⟩ }
      | .err m => .err m
      | .crash m => .crash m
      | .fuel => .fuel

/-- Tail of parseAttributeMatcher after the operator is known: the value,
trailing whitespace, the closing bracket, and the dispatch on the
operator. -/
def attrFinish (op key val : String) (rx : Option Regexp) (rest : List Char) : PRes Matcher :=
  match (skipWhitespace rest).2 with
  | [] => .err "unexpected EOF in attribute selector"
  | c :: rs =>
    if c != ']' then .err "expected closing bracket in attribute selector"
    else
      if op == "=" then .ok rs (attributeEqualsSelector key val)
      else if op == "!=" then .ok rs (attributeNotEqualSelector key val)
      else if op == "~=" then .ok rs (attributeIncludesSelector key val)
      else if op == "|=" then .ok rs (attributeDashmatchSelector key val)
      else if op == "^=" then .ok rs (attributePrefixSelector key val)
      else if op == "$=" then .ok rs (attributeSuffixSelector key val)
      else if op == "*=" then .ok rs (attributeSubstringSelector key val)
      else if op == "#=" then .ok rs (attributeRegexSelector key (rx.getD ⟨""⟩))
      else .err "attribute operator is not supported"

/-- Value parse of the attribute selector, then attrFinish. -/
def parseAttrValue (op key : String) (rest : List Char) : PRes Matcher :=
  match (skipWhitespace rest).2 with
  | [] => .err "unexpected EOF in attribute selector"
  | c :: rs =>
    if op == "#=" then
      match parseRegex (c :: rs) with
      | .ok rest' rx => attrFinish op key "" (some rx) rest'
      | .err m => .err m
      | .crash m => .crash m
      | .fuel => .fuel
    else if c == '\'' || c == '"' then
      match parseString (c :: rs) with
      | .ok rest' val => attrFinish op key val none rest'
      | .err m => .err m
      | .crash m => .crash m
      | .fuel => .fuel
    else
      match parseIdentifier (c :: rs) with
      | .ok rest' val => attrFinish op key val none rest'
      | .err m => .err m
      | .crash m => .crash m
      | .fuel => .fuel

/-- parseAttributeMatcher parses a bracketed attribute selector and
returns its match closure. -/
def parseAttributeMatcher (rest : List Char) : PRes Matcher :=
  match rest with
  | [] => .err "expected attribute selector, found EOF instead"
  | c :: rs =>
    if c != '[' then .err "expected attribute selector"
    else
      match parseIdentifier (skipWhitespace rs).2 with
      | .err m => .err m
      | .crash m => .crash m
      | .fuel => .fuel
      | .ok rest1 key =>
        match (skipWhitespace rest1).2 with
        | [] => .err "unexpected EOF in attribute selector"
        | ']' :: rs2 => .ok rs2 (attributeExistsSelector key)
        | c1 :: c2 :: rs3 =>
          if rs3.isEmpty then .err "unexpected EOF in attribute selector"
          else if c1 == '=' then parseAttrValue "=" key (c2 :: rs3)
          else if c2 != '=' then .err "expected equality operator"
          else parseAttrValue (String.mk [c1, c2]) key rs3
        | _ => .err "unexpected EOF in attribute selector"

/-- parseAttributeSelector wraps the matcher with specificity (0,1,0). -/
def parseAttributeSelector (rest : List Char) : PRes OneSelector :=
  match parseAttributeMatcher rest with
  | .ok rest' m => .ok rest' { matchFn := some m, Spec := ⟨0, 1, 0⟩ }
  | .err m => .err m
  | .crash m => .crash m
  | .fuel => .fuel

/-! ## The grammar parser

The mutually recursive part of the grammar (pseudo-classes contain nested
selector groups) runs on explicit fuel; fuel exhaustion is its own result
constructor, so a successful parse is independent of the fuel chosen. -/

mutual

/-- parsePseudoclassSelector parses a pseudoclass selector such as a
negation.  The source reads the character after the consumed colon
without a bounds check; at end of input that is an index out of range
(runtime panic), embedded as the crash result. -/
def parsePseudoclassSelector : Nat → List Char → PRes OneSelector
  | 0, _ => .fuel
  | fuel + 1, rest =>
    match rest with
    | [] => .err "expected pseudoclass selector, found EOF instead"
    | c :: rs =>
      if c != ':' then .err "expected pseudoclass selector"
      else
        match rs with
        | [] => .crash "index out of range"
        | d :: rs2 =>
          let rest1 := if d == ':' then rs2 else d :: rs2
          match parseIdentifier rest1 with
          | .err m => .err m
          | .crash m => .crash m
          | .fuel => .fuel
          | .ok rest2 name0 =>
            let name := toLowerASCII name0
            if name == "not" || name == "has" || name == "haschild" then
              match consumeParenthesis rest2 with
              | (false, _) => .err "expected opening parenthesis"
              | (true, rest3) =>
                match parseSelectorGroup fuel rest3 with
                | .err m => .err m
                | .crash m => .crash m
                | .fuel => .fuel
                | .ok rest4 sel =>
                  match consumeClosingParenthesis rest4 with
                  | (false, _) => .err "expected closing parenthesis"
                  | (true, rest5) =>
                    let m : Matcher :=
                      if name == "not" then negatedSelector (unionMatch sel)
                      else if name == "has" then hasDescendantSelector (unionMatch sel)
                      else hasChildSelector (unionMatch sel)
                    .ok rest5 { matchFn := some m, Spec := maximumSpecificity sel }
            else if name == "contains" || name == "containsown" then
              match consumeParenthesis rest2 with
              | (false, _) => .err "expected opening parenthesis"
              | (true, rest3) =>
                match rest3 with
                | [] => .err "unmatched opening parenthesis"
                | c1 :: _ =>
                  let pv : PRes String :=
                    if c1 == '\'' || c1 == '"' then parseString rest3 else parseIdentifier rest3
                  match pv with
                  | .err m => .err m
                  | .crash m => .crash m
                  | .fuel => .fuel
                  | .ok rest4 val0 =>
                    let val := strToLower val0
                    match (skipWhitespace rest4).2 with
                    | [] => .err "unexpected EOF in pseudo selector"
                    | w1 :: ws =>
                      match consumeClosingParenthesis (w1 :: ws) with
                      | (false, _) => .err "expected closing parenthesis"
                      | (true, rest6) =>
                        let m : Matcher :=
                          if name == "contains" then textSubstrSelector val
                          else ownTextSubstrSelector val
                        .ok rest6 { matchFn := some m, Spec := ⟨0, 1, 0⟩ }
            else if name == "matches" || name == "matchesown" then
              match consumeParenthesis rest2 with
              | (false, _) => .err "expected opening parenthesis"
              | (true, rest3) =>
                match parseRegex rest3 with
                | .err m => .err m
                | .crash m => .crash m
                | .fuel => .fuel
                | .ok rest4 rx =>
                  match rest4 with
                  | [] => .err "unexpected EOF in pseudo selector"
                  | w1 :: ws =>
                    match consumeClosingParenthesis (w1 :: ws) with
                    | (false, _) => .err "expected closing parenthesis"
                    | (true, rest5) =>
                      let m : Matcher :=
                        if name == "matches" then textRegexSelector rx
                        else ownTextRegexSelector rx
                      .ok rest5 { matchFn := some m, Spec := ⟨0, 1, 0⟩ }
            else if name == "nth-child" || name == "nth-last-child" ||
                name == "nth-of-type" || name == "nth-last-of-type" then
              match consumeParenthesis rest2 with
              | (false, _) => .err "expected opening parenthesis"
              | (true, rest3) =>
                match parseNth rest3 with
                | .err m => .err m
                | .crash m => .crash m
                | .fuel => .fuel
                | .ok rest4 ab =>
                  match consumeClosingParenthesis rest4 with
                  | (false, _) => .err "expected closing parenthesis"
                  | (true, rest5) =>
                    let last := name == "nth-last-child" || name == "nth-last-of-type"
                    let ofType := name == "nth-of-type" || name == "nth-last-of-type"
                    if ab.1 == 0 then
                      let m : Matcher :=
                        if last then simpleNthLastChildSelector ab.2 ofType
                        else simpleNthChildSelector ab.2 ofType
                      .ok rest5 { matchFn := some m, Spec := ⟨0, 1, 0⟩ }
                    else
                      .ok rest5 { matchFn := some (nthChildSelector ab.1 ab.2 last ofType),
                                  Spec := ⟨0, 1, 0⟩ }
            else if name == "first-child" then
              .ok rest2 { matchFn := some (simpleNthChildSelector 1 false), Spec := ⟨0, 1, 0⟩ }
            else if name == "last-child" then
              .ok rest2 { matchFn := some (simpleNthLastChildSelector 1 false), Spec := ⟨0, 1, 0⟩ }
            else if name == "first-of-type" then
              .ok rest2 { matchFn := some (simpleNthChildSelector 1 true), Spec := ⟨0, 1, 0⟩ }
            else if name == "last-of-type" then
              .ok rest2 { matchFn := some (simpleNthLastChildSelector 1 true), Spec := ⟨0, 1, 0⟩ }
            else if name == "only-child" then
              .ok rest2 { matchFn := some (onlyChildSelector false), Spec := ⟨0, 1, 0⟩ }
            else if name == "only-of-type" then
              .ok rest2 { matchFn := some (onlyChildSelector true), Spec := ⟨0, 1, 0⟩ }
            else if name == "input" then
              .ok rest2 { matchFn := some inputSelector, Spec := ⟨0, 1, 0⟩ }
            else if name == "empty" then
              .ok rest2 { matchFn := some emptyElementSelector, Spec := ⟨0, 1, 0⟩ }
            else if name == "root" then
              .ok rest2 { matchFn := some rootSelector, Spec := ⟨0, 1, 0⟩ }
            else if name == "after" || name == "backdrop" || name == "before" ||
                name == "cue" || name == "first-letter" || name == "first-line" ||
                name == "grammar-error" || name == "marker" || name == "placeholder" ||
                name == "selection" || name == "spelling-error" then
              .ok rest2 { matchFn := none, PseudoElement := name, Spec := ⟨0, 0, 1⟩ }
            else .err "unknown pseudoclass or pseudoelement"
termination_by structural fuel _ => fuel

/-- The clause loop of parseSimpleSelectorSequence. -/
def sssLoop : Nat → OneSelector → List Char → PRes OneSelector
  | 0, _, _ => .fuel
  | fuel + 1, result, rest =>
    match rest with
    | [] => .ok [] result
    | c :: rs =>
      if c == '#' || c == '.' || c == '[' || c == ':' then
        let pns : PRes OneSelector :=
          if c == '#' then parseIDSelector (c :: rs)
          else if c == '.' then parseClassSelector (c :: rs)
          else if c == '[' then parseAttributeSelector (c :: rs)
          else parsePseudoclassSelector fuel (c :: rs)
        match pns with
        | .err m => .err m
        | .crash m => .crash m
        | .fuel => .fuel
        | .ok rest' ns =>
          match result.matchFn with
          | none =>
            if ns.matchFn.isNone && ns.PseudoElement != "" then
              .err "stand-alone pseudo-element not allowed"
            else sssLoop fuel ns rest'
          | some rm =>
            let newMatch : Option Matcher :=
              if ns.PseudoElement == "" then
                match ns.matchFn with
                | some nm => some (intersectionSelector rm nm)
                | none => some rm
              else result.matchFn
            sssLoop fuel
              { matchFn := newMatch
                PseudoElement := ns.PseudoElement
                Spec := result.Spec.add ns.Spec } rest'
      else .ok (c :: rs) result
termination_by structural fuel _ _ => fuel

/-- The clause sequence read by the loop of parseSimpleSelectorSequence,
as a list, used to state which clause came last. -/
def sssClauses : Nat → List Char → PRes (List OneSelector)
  | 0, _ => .fuel
  | fuel + 1, rest =>
    match rest with
    | [] => .ok [] []
    | c :: rs =>
      if c == '#' || c == '.' || c == '[' || c == ':' then
        let pns : PRes OneSelector :=
          if c == '#' then parseIDSelector (c :: rs)
          else if c == '.' then parseClassSelector (c :: rs)
          else if c == '[' then parseAttributeSelector (c :: rs)
          else parsePseudoclassSelector fuel (c :: rs)
        match pns with
        | .err m => .err m
        | .crash m => .crash m
        | .fuel => .fuel
        | .ok rest' ns =>
          match sssClauses fuel rest' with
          | .ok rest'' cs => .ok rest'' (ns :: cs)
          | e => e
      else .ok (c :: rs) []
termination_by structural fuel _ => fuel

/-- parseSimpleSelectorSequence parses one compound selector. -/
def parseSimpleSelectorSequence : Nat → List Char → PRes OneSelector
  | 0, _ => .fuel
  | fuel + 1, rest =>
    match rest with
    | [] => .err "expected selector, found EOF instead"
    | c :: rs =>
      let start : PRes OneSelector :=
        if c == '*' then .ok rs {}
        else if c == '#' || c == '.' || c == '[' || c == ':' then .ok (c :: rs) {}
        else parseTypeSelector (c :: rs)
      match start with
      | .err m => .err m
      | .crash m => .crash m
      | .fuel => .fuel
      | .ok rest1 result =>
        match sssLoop fuel result rest1 with
        | .ok rest2 result2 =>
          if result2.matchFn.isNone then
            .ok rest2 { result2 with matchFn := some fun loc => loc.node.type == .ElementN }
          else .ok rest2 result2
        | e => e
termination_by structural fuel _ => fuel

/-- Shared tail of the combinator loop: parse the next compound and fold
it into the chain. -/
def selCombine : Nat → OneSelector → Char → List Char → PRes OneSelector
  | 0, _, _, _ => .fuel
  | fuel + 1, result, comb, rest =>
    match parseSimpleSelectorSequence fuel rest with
    | .err m => .err m
    | .crash m => .crash m
    | .fuel => .fuel
    | .ok rest1 c2 =>
      let newMatch : Matcher :=
        if comb == ' ' then descendantSelector (getM result.matchFn) (getM c2.matchFn)
        else if comb == '>' then childSelector (getM result.matchFn) (getM c2.matchFn)
        else if comb == '+' then siblingSelector (getM result.matchFn) (getM c2.matchFn) true
        else siblingSelector (getM result.matchFn) (getM c2.matchFn) false
      selLoop fuel
        { matchFn := some newMatch
          PseudoElement := result.PseudoElement
          Spec := result.Spec.add c2.Spec } rest1
termination_by structural fuel _ _ _ => fuel

/-- The combinator loop of parseSelector. -/
def selLoop : Nat → OneSelector → List Char → PRes OneSelector
  | 0, _, _ => .fuel
  | fuel + 1, result, rest =>
    let sk := skipWhitespace rest
    match sk.2 with
    | [] => .ok [] result
    | c :: rs =>
      if c == '+' || c == '>' || c == '~' then
        selCombine fuel result c (skipWhitespace rs).2
      else if c == ',' || c == ')' then .ok (c :: rs) result
      else if sk.1 then selCombine fuel result ' ' (c :: rs)
      else .ok (c :: rs) result
termination_by structural fuel _ _ => fuel

/-- parseSelector parses a chain of compounds joined by combinators. -/
def parseSelector : Nat → List Char → PRes OneSelector
  | 0, _ => .fuel
  | fuel + 1, rest =>
    match parseSimpleSelectorSequence fuel (skipWhitespace rest).2 with
    | .err m => .err m
    | .crash m => .crash m
    | .fuel => .fuel
    | .ok rest1 result => selLoop fuel result rest1
termination_by structural fuel _ => fuel

/-- The comma loop of parseSelectorGroup. -/
def groupLoop : Nat → List OneSelector → List Char → PRes (List OneSelector)
  | 0, _, _ => .fuel
  | fuel + 1, acc, rest =>
    match rest with
    | [] => .ok [] acc
    | c :: rs =>
      if c != ',' then .ok (c :: rs) acc
      else
        match parseSelector fuel rs with
        | .err m => .err m
        | .crash m => .crash m
        | .fuel => .fuel
        | .ok rest1 cur => groupLoop fuel (acc ++ [cur]) rest1
termination_by structural fuel _ _ => fuel

/-- parseSelectorGroup parses comma-separated selector chains. -/
def parseSelectorGroup : Nat → List Char → PRes (List OneSelector)
  | 0, _ => .fuel
  | fuel + 1, rest =>
    match parseSelector fuel rest with
    | .err m => .err m
    | .crash m => .crash m
    | .fuel => .fuel
    | .ok rest1 current => groupLoop fuel [current] rest1
termination_by structural fuel _ => fuel

end

/-- Result of Compile: a selector, a typed parse error, a runtime panic,
or fuel exhaustion of the embedding. -/
inductive CompileResult where
  | ok (sel : List OneSelector)
  | err (msg : String)
  | crash (msg : String)
  | fuel

/-- Compile parses a selector group and reports leftover input as a typed
error. -/
def Compile (fuel : Nat) (sel : String) : CompileResult :=
  match parseSelectorGroup fuel sel.data with
  | .ok rest compiled =>
    if 0 < rest.length then .err "bytes left over"
    else .ok compiled
  | .err m => .err m
  | .crash m => .crash m
  | .fuel => .fuel

/-! ## The serializable selector AST (serialize.go)

The serializer prints a tagged-variant selector representation.  The AST
below carries exactly the data the String methods read; the String
functions are the serialize.go implementations. -/

namespace SerAST

inductive SimpleSel where
  | tag (t : String)
  | idSel (i : String)
  | clsSel (c : String)
  | attrSel (key op val : String)
deriving DecidableEq, Repr

inductive Sel where
  | compound (sels : List SimpleSel) (pseudoElement : String)
  | combined (first : Sel) (combinator : Char) (second : Option Sel)
deriving Repr

/-- Tag of the leftmost compound of a chain (used to tell two parses
apart). -/
def Sel.headTag : Sel → String
  | .compound (SimpleSel.tag t :: _) _ => t
  | .compound _ _ => ""
  | .combined f _ _ => Sel.headTag f

/-- String methods of tagSelector, idSelector, classSelector and
attrSelector (for the regex operator, val carries the regexp source). -/
def SimpleSel.str : SimpleSel → String
  | .tag t => t
  | .idSel i => "#" ++ i
  | .clsSel c => "." ++ c
  | .attrSel key op val => "[" ++ key ++ op ++ val ++ "]"

/-- String methods of compoundSelector and combinedSelector, as written
in serialize.go: the combined case appends the formatted triple to the
already-rendered first operand, so the first operand is printed twice. -/
def Sel.str : Sel → String
  | .compound sels pe =>
    let s := String.join (sels.map SimpleSel.str)
    if pe != "" then s ++ "::" ++ pe else s
  | .combined first comb second =>
    let start := Sel.str first
    match second with
    | some snd => start ++ (start ++ " " ++ String.mk [comb] ++ " " ++ Sel.str snd)
    | none => start

/-- Modelled from the spec: the parser producing the serializable AST
(the modern tagged-variant parser whose output serialize.go prints) is
not among the source snapshots, which build closures instead.  This
parser follows the spec grammar of section 4.3 restricted to the node
kinds named by the round-trip claim: type, id, class and attribute
clauses, compounds, the four combinators and comma groups; pseudo-class
syntax is out of scope and rejected.  It reuses the source lexers. -/
def parseAttrM (rest : List Char) : Option (SimpleSel × List Char) :=
  match rest with
  | '[' :: rs =>
    match parseIdentifier (skipWhitespace rs).2 with
    | .ok rs1 key =>
      match (skipWhitespace rs1).2 with
      | ']' :: rs2 => some (.attrSel key "" "", rs2)
      | c1 :: c2 :: rs3 =>
        let pop : Option (String × List Char) :=
          if c1 == '=' then some ("=", c2 :: rs3)
          else if c2 == '=' then some (String.mk [c1, c2], rs3)
          else none
        match pop with
        | none => none
        | some (op, rs4) =>
          match (skipWhitespace rs4).2 with
          | [] => none
          | q :: qs =>
            let pv : PRes String :=
              if q == '\'' || q == '"' then parseString (q :: qs) else parseIdentifier (q :: qs)
            match pv with
            | .ok rs5 val =>
              match (skipWhitespace rs5).2 with
              | ']' :: rs6 => some (.attrSel key op val, rs6)
              | _ => none
            | _ => none
      | _ => none
    | _ => none
  | _ => none

def parseClauseM (rest : List Char) : Option (SimpleSel × List Char) :=
  match rest with
  | '#' :: rs =>
    match parseName rs with
    | .ok rest' i => some (.idSel i, rest')
    | _ => none
  | '.' :: rs =>
    match parseIdentifier rs with
    | .ok rest' c => some (.clsSel c, rest')
    | _ => none
  | '[' :: _ => parseAttrM rest
  | _ => none

def clausesM : Nat → List Char → Option (List SimpleSel × List Char)
  | 0, _ => none
  | fuel + 1, rest =>
    match parseClauseM rest with
    | some (cl, rest') =>
      match clausesM fuel rest' with
      | some (cls, rest'') => some (cl :: cls, rest'')
      | none => none
    | none => some ([], rest)

def parseCompoundM (fuel : Nat) (rest : List Char) : Option (Sel × List Char) :=
  match rest with
  | [] => none
  | c :: rs =>
    let base? : Option (List SimpleSel × List Char) :=
      if c == '*' then some ([], rs)
      else if c == '#' || c == '.' || c == '[' then some ([], c :: rs)
      else
        match parseIdentifier (c :: rs) with
        | .ok rest' tag => some ([SimpleSel.tag (toLowerASCII tag)], rest')
        | _ => none
    match base? with
    | none => none
    | some (base, rest1) =>
      match clausesM fuel rest1 with
      | some (cls, rest2) =>
        if c != '*' && base.isEmpty && cls.isEmpty then none
        else some (Sel.compound (base ++ cls) "", rest2)
      | none => none

def chainLoopM : Nat → Sel → List Char → Option (Sel × List Char)
  | 0, _, _ => none
  | fuel + 1, acc, rest =>
    let sk := skipWhitespace rest
    match sk.2 with
    | [] => some (acc, [])
    | c :: rs =>
      if c == '+' || c == '>' || c == '~' then
        match parseCompoundM fuel (skipWhitespace rs).2 with
        | some (nxt, rest2) => chainLoopM fuel (Sel.combined acc c (some nxt)) rest2
        | none => none
      else if c == ',' then some (acc, c :: rs)
      else if sk.1 then
        match parseCompoundM fuel (c :: rs) with
        | some (nxt, rest2) => chainLoopM fuel (Sel.combined acc ' ' (some nxt)) rest2
        | none => none
      else some (acc, c :: rs)

def parseChainM (fuel : Nat) (rest : List Char) : Option (Sel × List Char) :=
  match fuel with
  | 0 => none
  | fuel + 1 =>
    match parseCompoundM fuel (skipWhitespace rest).2 with
    | some (cp, rest1) => chainLoopM fuel cp rest1
    | none => none

def groupLoopM : Nat → List Sel → List Char → Option (List Sel)
  | 0, _, _ => none
  | fuel + 1, acc, rest =>
    match rest with
    | [] => some acc
    | ',' :: rs =>
      match parseChainM fuel rs with
      | some (ch, rest1) => groupLoopM fuel (acc ++ [ch]) rest1
      | none => none
    | _ => none

def parseGroupM (fuel : Nat) (s : String) : Option (List Sel) :=
  match parseChainM fuel s.data with
  | some (ch, rest) => groupLoopM fuel [ch] rest
  | none => none

end SerAST

/-! ## Specification-side readings used by the claim statements -/

/-- Whether a sibling is counted by the nth-child family: an element and,
for the of-type variants, one with the same tag name. -/
def qualSib (ofType : Bool) (nd : String) (c : Node) : Bool :=
  c.type == .ElementN && (!ofType || c.data == nd)

/-- Number of counted siblings in a list. -/
def countQual (ofType : Bool) (nd : String) (l : List Node) : Nat :=
  (l.filter (qualSib ofType nd)).length

/-- First entry of a sibling walk that is neither a text nor a comment
node. -/
def firstSkippingTextComment : List NodeLoc → Option NodeLoc
  | [] => none
  | l :: rest =>
    if l.node.type == .TextN || l.node.type == .CommentN then firstSkippingTextComment rest
    else some l

/-- First element entry of a sibling walk. -/
def firstPrevElement : List NodeLoc → Option NodeLoc
  | [] => none
  | l :: rest => if l.node.type == .ElementN then some l else firstPrevElement rest

/-- The pseudo-class name at the start of the input, read with the same
lexers the parser uses (colon, optional second colon, identifier,
ASCII-lowercased). -/
def pseudoName (rest : List Char) : Option (String × List Char) :=
  match rest with
  | c :: d :: rs2 =>
    if c != ':' then none
    else
      let r := if d == ':' then rs2 else d :: rs2
      match parseIdentifier r with
      | .ok r' name => some (toLowerASCII name, r')
      | _ => none
  | _ => none

/-- Maximum specificity of the parenthesized selector group that follows,
if it parses. -/
def specAfterGroup (fuel : Nat) (rest : List Char) : Option Specificity :=
  match consumeParenthesis rest with
  | (false, _) => none
  | (true, r2) =>
    match parseSelectorGroup fuel r2 with
    | .ok _ g => some (maximumSpecificity g)
    | _ => none

/-- Group-match semantics of a compiled selector: some alternative
matches (the found flag of MatchWithSpecificity). -/
def CompiledMatch (r : CompileResult) (loc : NodeLoc) : Bool :=
  match r with
  | .ok sels => sels.any fun s => getM s.matchFn loc
  | _ => false

/-! ## Claims -/

/-- C2: the claim that compilation is total with typed errors fails.  On
the inputs below the parser reads one byte past the end of the source
right after consuming a colon (parsePseudoclassSelector), which in Go is
an index-out-of-range runtime panic, not an error return. -/
theorem C2_compile_colon_crashes :
    Compile 60 ":" = CompileResult.crash "index out of range" ∧
    Compile 60 "p:" = CompileResult.crash "index out of range" := ⟨rfl, rfl⟩

theorem attrNotEqGo_eq_not_any (key val : String) :
    ∀ l : List (String × String),
      attrNotEqGo key val l = !(l.any fun a => a.1 == key && a.2 == val) := by
  intro l
  induction l with
  | nil => rfl
  | cons a rest ih =>
    simp only [attrNotEqGo, List.any_cons, Bool.not_or]
    split
    · rename_i hx
      simp [hx]
    · rename_i hx
      simp only [Bool.not_eq_true] at hx
      simp [hx, ih]

/-- C7: the not-equal attribute matcher returns true iff the node is an
element and no attribute named key carries the value val (so it returns
true when the attribute is absent), and returns false on every
non-element node. -/
theorem C7_attributeNotEqualMatch (key val : String) (loc : NodeLoc) :
    attributeNotEqualMatch key val loc =
      (loc.node.type == .ElementN &&
        !(loc.node.attr.any fun a => a.1 == key && a.2 == val)) := by
  obtain ⟨⟨t, d, al, cs⟩, path⟩ := loc
  cases t with
  | ElementN =>
    show attrNotEqGo key val al = !(al.any fun a => a.1 == key && a.2 == val)
    exact attrNotEqGo_eq_not_any key val al
  | ErrorN => rfl
  | TextN => rfl
  | DocumentN => rfl
  | CommentN => rfl
  | DoctypeN => rfl

/-- C8: compiling the universal selector star yields a matcher true on
every element node and false on text, comment and document nodes; and a
compound selector with no sub-matchers likewise requires an element. -/
theorem C8_universal_selector :
    (∀ loc : NodeLoc, CompiledMatch (Compile 60 "*") loc = (loc.node.type == .ElementN)) ∧
    (∀ (pe : String) (loc : NodeLoc),
      compoundSelector.Match ⟨[], pe⟩ loc = (loc.node.type == .ElementN)) := by
  constructor
  · intro loc
    have h : Compile 60 "*" =
        CompileResult.ok [{ matchFn := some fun l => l.node.type == .ElementN,
                            PseudoElement := "", Spec := ⟨0, 0, 0⟩ }] := rfl
    rw [h]
    show ((loc.node.type == NType.ElementN) || false) = (loc.node.type == NType.ElementN)
    exact Bool.or_false _
  · intro pe loc
    rfl

/-- C1: the round-trip claim fails on the chain a-descendant-b, because
the String method of combinedSelector appends the formatted triple to the
already-printed left side, printing it twice: the parse of the string
consisting of the tag a, a space and the tag b serializes to the string
with the doubled tag aa, whose re-parse has head tag aa, a structurally
different AST.  The repository test TestSerialize requires DeepEqual
round-trips over such selectors. -/
theorem C1_serialize_roundtrip_fails :
    SerAST.parseGroupM 40 "a b" =
      some [SerAST.Sel.combined (SerAST.Sel.compound [SerAST.SimpleSel.tag "a"] "") ' '
        (some (SerAST.Sel.compound [SerAST.SimpleSel.tag "b"] ""))] ∧
    SerAST.Sel.str (SerAST.Sel.combined (SerAST.Sel.compound [SerAST.SimpleSel.tag "a"] "") ' '
        (some (SerAST.Sel.compound [SerAST.SimpleSel.tag "b"] ""))) = "aa   b" ∧
    SerAST.parseGroupM 40 "aa   b" =
      some [SerAST.Sel.combined (SerAST.Sel.compound [SerAST.SimpleSel.tag "aa"] "") ' '
        (some (SerAST.Sel.compound [SerAST.SimpleSel.tag "b"] ""))] ∧
    SerAST.Sel.combined (SerAST.Sel.compound [SerAST.SimpleSel.tag "aa"] "") ' '
        (some (SerAST.Sel.compound [SerAST.SimpleSel.tag "b"] "")) ≠
      SerAST.Sel.combined (SerAST.Sel.compound [SerAST.SimpleSel.tag "a"] "") ' '
        (some (SerAST.Sel.compound [SerAST.SimpleSel.tag "b"] "")) := by
  refine ⟨rfl, rfl, rfl, fun h => ?_⟩
  exact absurd (congrArg SerAST.Sel.headTag h) (by decide)

theorem siblingAdjGo_eq_first (s1 : Matcher) :
    ∀ ls : List NodeLoc,
      siblingAdjGo s1 ls =
        (match firstSkippingTextComment ls with
         | some l => s1 l
         | none => false) := by
  intro ls
  induction ls with
  | nil => rfl
  | cons l rest ih =>
    simp only [siblingAdjGo, firstSkippingTextComment]
    split
    · exact ih
    · rfl

/-- C6 counterexample: with a doctype node as the nearest preceding
sibling, the adjacent-sibling matcher tests the doctype itself (the walk
skips only text and comment nodes), and a contains pseudo-class with the
empty string accepts it; the first preceding element sibling does not
even exist, so the claim as stated requires a false result. -/
theorem C6_counterexample_doctype_sibling :
    siblingMatch (textSubstrSelector "") (fun loc => loc.node.type == .ElementN) true
      ⟨Node.mk .ElementN "p" [] [],
       [⟨.DocumentN, "", [], [Node.mk .DoctypeN "html" [] []], []⟩]⟩ = true ∧
    firstPrevElement (NodeLoc.prevLocs ⟨Node.mk .ElementN "p" [] [],
       [⟨.DocumentN, "", [], [Node.mk .DoctypeN "html" [] []], []⟩]⟩) = none := ⟨rfl, rfl⟩

/-- C6 amended: the adjacent-sibling matcher returns true iff the node
matches the right-hand matcher and the first preceding sibling that is
neither a text nor a comment node matches the left sub-chain; text and
comment siblings are skipped without counting, and exactly that one
remaining sibling (of any other kind, not necessarily an element) is
tested. -/
theorem C6_adjacent_sibling (s1 s2 : Matcher) (loc : NodeLoc) :
    siblingMatch s1 s2 true loc =
      (s2 loc &&
        match firstSkippingTextComment loc.prevLocs with
        | some l => s1 l
        | none => false) := by
  unfold siblingMatch
  cases hs2 : s2 loc with
  | false => rfl
  | true => exact siblingAdjGo_eq_first s1 loc.prevLocs

/-! ### The nth-child family: loop lemmas -/

theorem skip_eq_not_qual (ofType : Bool) (nd : String) (c : Node) :
    ((c.type != NType.ElementN) || (ofType && c.data != nd)) = !qualSib ofType nd c := by
  unfold qualSib
  cases h1 : (c.type == NType.ElementN) <;> cases ofType <;> cases h3 : (c.data == nd) <;>
    simp [bne, h1, h3]

theorem countQual_cons_pos (ofType : Bool) (nd : String) (c : Node) (l : List Node)
    (hq : qualSib ofType nd c = true) :
    countQual ofType nd (c :: l) = countQual ofType nd l + 1 := by
  simp [countQual, List.filter_cons, hq]

theorem countQual_cons_neg (ofType : Bool) (nd : String) (c : Node) (l : List Node)
    (hq : qualSib ofType nd c = false) :
    countQual ofType nd (c :: l) = countQual ofType nd l := by
  simp [countQual, List.filter_cons, hq]

theorem countQual_reverse (ofType : Bool) (nd : String) (l : List Node) :
    countQual ofType nd l.reverse = countQual ofType nd l := by
  simp [countQual, List.filter_reverse]

theorem nthLoopGo_before (ofType : Bool) (nd : String) (npos : Nat) (last : Bool) :
    ∀ (pre tail : List Node) (j count : Nat) (i : Int),
      j + pre.length ≤ npos →
      nthLoopGo ofType nd npos last (pre ++ tail) j count i =
        nthLoopGo ofType nd npos last tail (j + pre.length) (count + countQual ofType nd pre) i := by
  intro pre
  induction pre with
  | nil =>
    intro tail j count i _
    simp [countQual]
  | cons c pre' ih =>
    intro tail j count i h
    simp only [List.cons_append, nthLoopGo, skip_eq_not_qual, List.length_cons,
      List.append_eq] at h ⊢
    cases hq : qualSib ofType nd c with
    | false =>
      rw [if_pos (by rfl)]
      rw [ih tail (j + 1) count i (by omega)]
      rw [countQual_cons_neg ofType nd c pre' hq]
      rw [show j + 1 + pre'.length = j + (pre'.length + 1) from by omega]
    | true =>
      rw [if_neg (by simp)]
      rw [show (j == npos) = false from beq_eq_false_iff_ne.mpr (by omega)]
      rw [if_neg Bool.false_ne_true]
      rw [ih tail (j + 1) (count + 1) i (by omega)]
      rw [countQual_cons_pos ofType nd c pre' hq]
      rw [show j + 1 + pre'.length = j + (pre'.length + 1) from by omega]
      rw [show count + 1 + countQual ofType nd pre' = count + (countQual ofType nd pre' + 1)
        from by omega]

theorem nthLoopGo_after (ofType : Bool) (nd : String) (npos : Nat) (last : Bool) :
    ∀ (post : List Node) (j count : Nat) (i : Int), npos < j →
      nthLoopGo ofType nd npos last post j count i = (i, count + countQual ofType nd post) := by
  intro post
  induction post with
  | nil =>
    intro j count i _
    simp [nthLoopGo, countQual]
  | cons c post' ih =>
    intro j count i h
    simp only [nthLoopGo, skip_eq_not_qual]
    cases hq : qualSib ofType nd c with
    | false =>
      rw [if_pos (by rfl)]
      rw [ih (j + 1) count i (by omega)]
      rw [countQual_cons_neg ofType nd c post' hq]
    | true =>
      rw [if_neg (by simp)]
      rw [show (j == npos) = false from beq_eq_false_iff_ne.mpr (by omega)]
      rw [if_neg Bool.false_ne_true]
      rw [ih (j + 1) (count + 1) i (by omega)]
      rw [countQual_cons_pos ofType nd c post' hq]
      rw [show count + 1 + countQual ofType nd post' = count + (countQual ofType nd post' + 1)
        from by omega]

theorem nthLoopGo_eval (ofType : Bool) (nd : String) (last : Bool)
    (pre : List Node) (n : Node) (post : List Node) (hq : qualSib ofType nd n = true) :
    nthLoopGo ofType nd pre.length last (pre ++ n :: post) 0 0 (-1) =
      (if last
        then (((countQual ofType nd pre + 1 : Nat) : Int),
              countQual ofType nd pre + 1 + countQual ofType nd post)
        else (((countQual ofType nd pre + 1 : Nat) : Int), countQual ofType nd pre + 1)) := by
  rw [nthLoopGo_before ofType nd pre.length last pre (n :: post) 0 0 (-1) (by omega)]
  simp only [Nat.zero_add]
  simp only [nthLoopGo, skip_eq_not_qual]
  rw [if_neg (by rw [hq]; simp)]
  rw [show (pre.length == pre.length) = true from beq_self_eq_true pre.length]
  cases last with
  | false => simp
  | true =>
    simp only [Bool.not_true, if_neg Bool.false_ne_true]
    rw [nthLoopGo_after ofType nd pre.length true post (pre.length + 1)
      (countQual ofType nd pre + 1) _ (by omega)]
    simp

theorem int_beq_sub_zero (x y : Int) : (x == y) = ((x - y) == (0 : Int)) := by
  by_cases h : x = y
  · simp [h]
  · rw [beq_eq_false_iff_ne.mpr h, beq_eq_false_iff_ne.mpr (by omega)]

theorem simpleNthLoopGo_split (ofType : Bool) (nd : String) (b : Int) :
    ∀ (pre : List Node) (n : Node) (post : List Node) (j count : Nat),
      qualSib ofType nd n = true →
      simpleNthLoopGo ofType nd (j + pre.length) b (pre ++ n :: post) j count =
        (((count + countQual ofType nd pre + 1 : Nat) : Int) == b) := by
  intro pre
  induction pre with
  | nil =>
    intro n post j count hq
    simp only [List.length_nil, Nat.add_zero, List.nil_append, simpleNthLoopGo,
      skip_eq_not_qual]
    rw [if_neg (by rw [hq]; simp)]
    rw [show (j == j) = true from beq_self_eq_true j]
    simp [countQual]
  | cons c pre' ih =>
    intro n post j count hq
    simp only [List.cons_append, simpleNthLoopGo, skip_eq_not_qual, List.length_cons,
      List.append_eq]
    cases hqc : qualSib ofType nd c with
    | false =>
      rw [if_pos (by rfl)]
      have := ih n post (j + 1) count hq
      rw [show j + 1 + pre'.length = j + (pre'.length + 1) from by omega] at this
      rw [this, countQual_cons_neg ofType nd c pre' hqc]
    | true =>
      rw [if_neg (by simp)]
      rw [show (j == j + (pre'.length + 1)) = false from beq_eq_false_iff_ne.mpr (by omega)]
      rw [if_neg Bool.false_ne_true]
      rw [countQual_cons_pos ofType nd c pre' hqc]
      by_cases hble : b ≤ ((count + 1 : Nat) : Int)
      · rw [if_pos hble]
        rw [show (((count + (countQual ofType nd pre' + 1) + 1 : Nat) : Int) == b) = false
          from beq_eq_false_iff_ne.mpr (by omega)]
      · rw [if_neg hble]
        have := ih n post (j + 1) (count + 1) hq
        rw [show j + 1 + pre'.length = j + (pre'.length + 1) from by omega] at this
        rw [this]
        rw [show count + 1 + countQual ofType nd pre' + 1
          = count + (countQual ofType nd pre' + 1) + 1 from by omega]

/-- C5: the specialized fixed-position matchers used when a is zero agree
with the general An+B matcher at a = 0, for every offset, of-type flag
and node. -/
theorem guard_bne_eq (x y : NType) (A : Bool) :
    (if (x != y) = true then false else A) = ((x == y) && A) := by
  cases h : (x == y) <;> simp [bne, h]

theorem guard_beq_eq (x y : NType) (A : Bool) :
    (if (x == y) = true then false else A) = (!(x == y) && A) := by
  cases h : (x == y) <;> simp [h]

/-- C5: the specialized fixed-position matchers used when a is zero agree
with the general An+B matcher at a = 0, for every offset, of-type flag
and node. -/
theorem C5_simple_eq_general (b : Int) (ofType : Bool) (loc : NodeLoc) :
    simpleNthChildMatch b ofType loc = nthChildMatch 0 b false ofType loc ∧
    simpleNthLastChildMatch b ofType loc = nthChildMatch 0 b true ofType loc := by
  obtain ⟨n, path⟩ := loc
  have hqn : (n.type == NType.ElementN) = true → qualSib ofType n.data n = true := by
    intro h
    unfold qualSib
    rw [h]
    cases ofType <;> simp
  constructor
  · cases path with
    | nil =>
      unfold simpleNthChildMatch nthChildMatch
      simp only [NodeLoc.node, NodeLoc.path]
    | cons f fs =>
      unfold simpleNthChildMatch nthChildMatch
      simp only [NodeLoc.node, NodeLoc.path]
      rw [guard_beq_eq, guard_beq_eq, guard_bne_eq, guard_bne_eq]
      cases hel : (n.type == NType.ElementN) with
      | false => rw [Bool.false_and, Bool.false_and]
      | true =>
        rw [Bool.true_and, Bool.true_and]
        cases hdoc : (f.ptype == NType.DocumentN) with
        | true => rw [Bool.not_true, Bool.false_and, Bool.false_and]
        | false =>
          rw [Bool.not_false, Bool.true_and, Bool.true_and]
          have hq := hqn hel
          have L := simpleNthLoopGo_split ofType n.data b f.left.reverse n f.right 0 0 hq
          rw [show 0 + f.left.reverse.length = f.left.length from by simp,
            Nat.zero_add, countQual_reverse] at L
          have R := nthLoopGo_eval ofType n.data false f.left.reverse n f.right hq
          rw [show f.left.reverse.length = f.left.length from by simp,
            countQual_reverse] at R
          rw [L, R]
          set q1 := countQual ofType n.data f.left with hq1
          have hm1 : ((((q1 + 1 : Nat) : Int)) == (-1 : Int)) = false :=
            beq_eq_false_iff_ne.mpr (by omega)
          show (((q1 + 1 : Nat) : Int) == b) =
            (if ((((q1 + 1 : Nat) : Int)) == (-1 : Int)) = true then false
             else ((((q1 + 1 : Nat) : Int) - b) == (0 : Int)))
          rw [hm1, if_neg Bool.false_ne_true]
          exact int_beq_sub_zero _ _
  · cases path with
    | nil =>
      unfold simpleNthLastChildMatch nthChildMatch
      simp only [NodeLoc.node, NodeLoc.path]
    | cons f fs =>
      unfold simpleNthLastChildMatch nthChildMatch
      simp only [NodeLoc.node, NodeLoc.path]
      rw [guard_beq_eq, guard_beq_eq, guard_bne_eq, guard_bne_eq]
      cases hel : (n.type == NType.ElementN) with
      | false => rw [Bool.false_and, Bool.false_and]
      | true =>
        rw [Bool.true_and, Bool.true_and]
        cases hdoc : (f.ptype == NType.DocumentN) with
        | true => rw [Bool.not_true, Bool.false_and, Bool.false_and]
        | false =>
          rw [Bool.not_false, Bool.true_and, Bool.true_and]
          have hq := hqn hel
          have L := simpleNthLoopGo_split ofType n.data b f.right.reverse n f.left 0 0 hq
          rw [show 0 + f.right.reverse.length = f.right.length from by simp,
            Nat.zero_add, countQual_reverse] at L
          have R := nthLoopGo_eval ofType n.data true f.left.reverse n f.right hq
          rw [show f.left.reverse.length = f.left.length from by simp,
            countQual_reverse] at R
          rw [L, R]
          set q1 := countQual ofType n.data f.left with hq1
          set q2 := countQual ofType n.data f.right with hq2
          have hm1 : ((((q1 + 1 : Nat) : Int)) == (-1 : Int)) = false :=
            beq_eq_false_iff_ne.mpr (by omega)
          have hc2 : ((q1 + 1 + q2 : Nat) : Int) - ((q1 + 1 : Nat) : Int) + 1 - b
              = ((q2 + 1 : Nat) : Int) - b := by push_cast; ring
          show (((q2 + 1 : Nat) : Int) == b) =
            (if ((((q1 + 1 : Nat) : Int)) == (-1 : Int)) = true then false
             else ((((q1 + 1 + q2 : Nat) : Int) - ((q1 + 1 : Nat) : Int) + 1 - b) == (0 : Int)))
          rw [hm1, if_neg Bool.false_ne_true, hc2]
          exact int_beq_sub_zero _ _

/-- C5 witness is not required (no proposition hypotheses), but the
equation is exercised at a concrete second child for good measure. -/
theorem C5_simple_eq_general_example :
    simpleNthChildMatch 2 false
      ⟨Node.mk .ElementN "p" [] [],
       [⟨.ElementN, "ol", [], [Node.mk .ElementN "li" [] []], []⟩]⟩ = true := rfl

/-- C9: when a not, has or haschild pseudo-class parses successfully, the
specificity stored on the produced clause is exactly the maximum
specificity over the alternatives of its parenthesized nested selector
group (computed by maximumSpecificity), not a fixed constant. -/
theorem C9_relative_pseudo_specificity (fuel : Nat) (rest : List Char) (name : String)
    (rest1 rest' : List Char) (out : OneSelector)
    (hn : pseudoName rest = some (name, rest1))
    (hname : name = "not" ∨ name = "has" ∨ name = "haschild")
    (hp : parsePseudoclassSelector (fuel + 1) rest = .ok rest' out) :
    specAfterGroup fuel rest1 = some out.Spec := by
  match rest with
  | [] => exact absurd hn (by simp [pseudoName])
  | [c] => exact absurd hn (by simp [pseudoName])
  | c :: d :: rs2 =>
    simp only [pseudoName] at hn
    by_cases hc : (c != ':') = true
    · rw [if_pos hc] at hn
      exact absurd hn (by simp)
    · rw [if_neg hc] at hn
      simp only [parsePseudoclassSelector] at hp
      rw [if_neg hc] at hp
      cases hpi : parseIdentifier (if d == ':' then rs2 else d :: rs2) with
      | ok r' name0 =>
        rw [hpi] at hn hp
        simp only [Option.some.injEq, Prod.mk.injEq] at hn
        obtain ⟨hna, hnb⟩ := hn
        subst hnb
        rcases hname with rfl | rfl | rfl <;>
        · simp only [] at hp
          rw [hna] at hp
          rw [if_pos (by rfl)] at hp
          cases hcp : consumeParenthesis r' with
          | mk b3 r3 =>
            rw [hcp] at hp
            cases b3 with
            | false => simp at hp
            | true =>
              simp only [] at hp
              cases hsg : parseSelectorGroup fuel r3 with
              | ok r4 sel =>
                rw [hsg] at hp
                simp only [] at hp
                cases hcc : consumeClosingParenthesis r4 with
                | mk b5 r5 =>
                  rw [hcc] at hp
                  cases b5 with
                  | false => simp at hp
                  | true =>
                    simp only [PRes.ok.injEq] at hp
                    obtain ⟨-, hout⟩ := hp
                    rw [specAfterGroup, hcp]
                    simp only []
                    rw [hsg, ← hout]
              | err m => rw [hsg] at hp; simp at hp
              | crash m => rw [hsg] at hp; simp at hp
              | fuel => rw [hsg] at hp; simp at hp
      | err m => rw [hpi] at hn; simp at hn
      | crash m => rw [hpi] at hn; simp at hn
      | fuel => rw [hpi] at hn; simp at hn

/-- C9 witness: a parsed negation of an id selector stores specificity
(1,0,0), the maximum specificity of its one-alternative group. -/
theorem C9_relative_pseudo_specificity_witness :
    specAfterGroup 49 ("(#a)".data) = some (⟨1, 0, 0⟩ : Specificity) := by
  have h := C9_relative_pseudo_specificity 49 (":not(#a)".data) "not" ("(#a)".data) []
    ({ matchFn := some (negatedSelector (unionMatch
        [{ matchFn := some (attributeEqualsSelector "id" "a"), PseudoElement := "",
           Spec := ⟨1, 0, 0⟩ }])), PseudoElement := "", Spec := ⟨1, 0, 0⟩ })
    (by rfl) (Or.inl rfl) (by rfl)
  exact h

/-- C10: inside the clause loop of parseSimpleSelectorSequence, once a
boolean matcher is installed, every further clause overwrites the
PseudoElement field with its own pseudo-element name (the empty string
for ordinary clauses), so the parsed compound carries the pseudo-element
of the last clause: a second pseudo-element silently overrides the first
and an ordinary clause after a pseudo-element silently erases it, with no
parse error; with no clauses the field is unchanged. -/
theorem C10_pseudo_element_last_clause (fuel : Nat) :
    ∀ (result : OneSelector) (rest rest' rest2 : List Char)
      (out : OneSelector) (cs : List OneSelector),
      result.matchFn.isSome = true →
      sssLoop fuel result rest = .ok rest' out →
      sssClauses fuel rest = .ok rest2 cs →
      out.PseudoElement = ((cs.getLast?).getD result).PseudoElement := by
  induction fuel with
  | zero =>
    intro result rest rest' rest2 out cs _ hp _
    simp [sssLoop] at hp
  | succ fuel ih =>
    intro result rest rest' rest2 out cs hm hp hc
    cases rest with
    | nil =>
      simp only [sssLoop, PRes.ok.injEq] at hp
      simp only [sssClauses, PRes.ok.injEq] at hc
      obtain ⟨-, hout⟩ := hp
      obtain ⟨-, hcs⟩ := hc
      subst hout
      subst hcs
      rfl
    | cons c rs =>
      by_cases hch : (c == '#' || c == '.' || c == '[' || c == ':') = true
      · simp only [sssLoop] at hp
        simp only [sssClauses] at hc
        rw [if_pos hch] at hp hc
        cases hpns : (if c == '#' then parseIDSelector (c :: rs)
            else if c == '.' then parseClassSelector (c :: rs)
            else if c == '[' then parseAttributeSelector (c :: rs)
            else parsePseudoclassSelector fuel (c :: rs)) with
        | ok restn ns =>
          rw [hpns] at hp hc
          obtain ⟨rm, hrm⟩ : ∃ rm, result.matchFn = some rm := by
            cases hm2 : result.matchFn with
            | some rm => exact ⟨rm, rfl⟩
            | none => rw [hm2] at hm; simp at hm
          rw [hrm] at hp
          simp only [] at hp hc
          cases hcs : sssClauses fuel restn with
          | ok rest2x csx =>
            rw [hcs] at hc
            simp only [PRes.ok.injEq] at hc
            obtain ⟨-, hcc⟩ := hc
            subst hcc
            have hsome : ({ matchFn := (if ns.PseudoElement == "" then (match ns.matchFn with | some nm => some (intersectionSelector rm nm) | none => some rm) else some rm), PseudoElement := ns.PseudoElement, Spec := result.Spec.add ns.Spec } : OneSelector).matchFn.isSome = true := by
              cases hpe : (ns.PseudoElement == "") with
              | false => simp [hpe]
              | true =>
                cases hnm : ns.matchFn with
                | some nm => simp [hpe, hnm]
                | none => simp [hpe, hnm]
            have := ih _ restn rest' rest2x out csx hsome hp hcs
            cases csx with
            | nil => simpa using this
            | cons x xs =>
              rw [List.getLast?_cons_cons]
              cases hxl : (x :: xs).getLast? with
              | none => simp at hxl
              | some a =>
                rw [hxl] at this
                simpa using this
          | err m => rw [hcs] at hc; simp at hc
          | crash m => rw [hcs] at hc; simp at hc
          | fuel => rw [hcs] at hc; simp at hc
        | err m => rw [hpns] at hp; simp at hp
        | crash m => rw [hpns] at hp; simp at hp
        | fuel => rw [hpns] at hp; simp at hp
      · simp only [sssLoop] at hp
        simp only [sssClauses] at hc
        rw [if_neg hch] at hp hc
        simp only [PRes.ok.injEq] at hp hc
        obtain ⟨-, hout⟩ := hp
        obtain ⟨-, hcs⟩ := hc
        subst hout
        subst hcs
        rfl

def c10OutW : OneSelector :=
  { matchFn := (typeSelector "p").matchFn, PseudoElement := "after", Spec := ⟨0, 0, 3⟩ }

def c10CsW : List OneSelector :=
  [{ matchFn := none, PseudoElement := "before", Spec := ⟨0, 0, 1⟩ },
   { matchFn := none, PseudoElement := "after", Spec := ⟨0, 0, 1⟩ }]

/-- C10 witness: after a tag base, the clause list before-then-after
parses without error and the compound carries the pseudo-element of the
last clause. -/
theorem C10_pseudo_element_last_clause_witness :
    c10OutW.PseudoElement = ((c10CsW.getLast?).getD (typeSelector "p")).PseudoElement :=
  C10_pseudo_element_last_clause 50 (typeSelector "p") ("::before::after".data) [] []
    c10OutW c10CsW (by rfl) (by rfl) (by rfl)

/-- A scan for p over a word all of whose characters satisfy p, followed
by input whose first character does not, takes exactly the word. -/
theorem takeWhile_word (p : Char → Bool) (w s : List Char)
    (hall : ∀ c ∈ w, p c = true) (hs : ∀ c, s.head? = some c → p c = false) :
    (w ++ s).takeWhile p = w ∧ (w ++ s).dropWhile p = s := by
  induction w with
  | nil =>
    constructor
    · cases s with
      | nil => rfl
      | cons c t =>
        simp only [List.nil_append, List.takeWhile]
        rw [hs c rfl]
    · cases s with
      | nil => rfl
      | cons c t =>
        simp only [List.nil_append, List.dropWhile]
        rw [hs c rfl]
  | cons c w' ih =>
    have hc : p c = true := hall c (by simp)
    obtain ⟨h1, h2⟩ := ih (fun d hd => hall d (by simp [hd]))
    constructor
    · simp only [List.cons_append, List.takeWhile, hc, List.append_eq, h1]
    · simp only [List.cons_append, List.dropWhile, hc, List.append_eq, h2]

/-- The name loop consumes a nonempty all-nameChar word in one pass and
stops at a boundary character that is neither a name character nor a
backslash. -/
theorem parseNameLoop_word (fuelN : Nat) (w s : List Char) (hw : w ≠ [])
    (hall : ∀ c ∈ w, nameChar c = true)
    (hs : ∀ c, s.head? = some c → nameChar c = false ∧ (c == '\\') = false) :
    parseNameLoop (fuelN + 2) "" (w ++ s) = .ok s (String.mk w) := by
  obtain ⟨c, w', rfl⟩ : ∃ c w', w = c :: w' := by
    cases w with
    | nil => exact absurd rfl hw
    | cons c w' => exact ⟨c, w', rfl⟩
  obtain ⟨ht, hd⟩ := takeWhile_word nameChar (c :: w') s hall (fun d hd => (hs d hd).1)
  have hc : nameChar c = true := hall c (by simp)
  simp only [List.cons_append] at ht hd
  have hne : (String.mk (c :: w') == "") = false := by
    rw [beq_eq_false_iff_ne]
    intro h
    have hdata : c :: w' = ([] : List Char) := congrArg String.data h
    exact absurd hdata (by simp)
  show parseNameLoop (fuelN + 1 + 1) "" (c :: (w' ++ s)) = .ok s (String.mk (c :: w'))
  rw [parseNameLoop]
  simp only [hc, if_true, ht, hd]
  show parseNameLoop (fuelN + 1) (String.mk (c :: w')) s = .ok s (String.mk (c :: w'))
  cases s with
  | nil =>
    rw [parseNameLoop]
    simp [hne]
  | cons d t =>
    obtain ⟨hnc, hnb⟩ := hs d rfl
    rw [parseNameLoop]
    simp [hnc, hnb, hne]

/-- parseName on a nonempty all-nameChar word before a boundary returns
the word and leaves the boundary input. -/
theorem parseName_word (w s : List Char) (hw : w ≠ [])
    (hall : ∀ c ∈ w, nameChar c = true)
    (hs : ∀ c, s.head? = some c → nameChar c = false ∧ (c == '\\') = false) :
    parseName (w ++ s) = .ok s (String.mk w) := by
  have h2 : (w ++ s).length + 1 = (w.length + s.length - 1) + 2 := by
    cases w with
    | nil => exact absurd rfl hw
    | cons c w' => simp only [List.length_append, List.length_cons]; omega
  rw [parseName, h2]
  exact parseNameLoop_word _ w s hw hall hs

/-- A digit never equals a non-digit character. -/
theorem isDigit_ne (c d : Char) (h : isDigit c = true) (hd : isDigit d = false) :
    (c == d) = false := by
  rw [beq_eq_false_iff_ne]
  intro e
  rw [e, hd] at h
  exact Bool.false_ne_true h

/-- Digits are not whitespace. -/
theorem isDigit_goSpace (c : Char) (h : isDigit c = true) : goSpace c = false := by
  rw [goSpace, isDigit_ne c ' ' h (by decide), isDigit_ne c '\t' h (by decide),
    isDigit_ne c '\r' h (by decide), isDigit_ne c '\n' h (by decide),
    isDigit_ne c ffChar h (by decide)]
  rfl

/-- parseInteger reads exactly a nonempty in-range digit run bounded by a
non-digit. -/
theorem parseInteger_digits (ds s : List Char) (hne : ds ≠ [])
    (hall : ∀ c ∈ ds, isDigit c = true)
    (hs : ∀ c, s.head? = some c → isDigit c = false)
    (hbound : digitsVal ds ≤ 9223372036854775807) :
    parseInteger (ds ++ s) = .ok s (digitsVal ds) := by
  obtain ⟨ht, hd⟩ := takeWhile_word isDigit ds s hall hs
  have hemp : ds.isEmpty = false := by
    cases ds with
    | nil => exact absurd rfl hne
    | cons d ds' => rfl
  rw [parseInteger]
  simp only [ht, hd, hemp, Bool.false_eq_true, if_false]
  rw [if_neg (Nat.not_lt.mpr hbound)]

/-- skipWhitespace leaves input headed by a non-space character that does
not open a comment untouched. -/
theorem skipWhitespace_noskip (c : Char) (s : List Char)
    (h1 : goSpace c = false) (h2 : (c == '/') = false) :
    skipWhitespace (c :: s) = (false, c :: s) := by
  show skipWhitespaceGo (s.length + 1 + 1) false (c :: s) = (false, c :: s)
  rw [skipWhitespaceGo.eq_def]
  simp only []
  rw [h1, h2, if_neg Bool.false_ne_true, if_neg Bool.false_ne_true]

/-- C4: the An+B micro-parser recognizes odd as (2,1) and even as (2,0)
in any letter case; an integer with no n/N marker, optionally signed,
yields a=0 and that signed integer as b; the marker preceded by only an
optional sign yields a=+1 or a=-1; and after the marker an optional
signed integer gives b, with b=0 when absent (also when a coefficient
precedes the marker). -/
theorem C4_parseNth_grammar :
    (∀ (c1 c2 c3 : Char) (s : List Char),
       (c1 = 'o' ∨ c1 = 'O') → (c2 = 'd' ∨ c2 = 'D') → (c3 = 'd' ∨ c3 = 'D') →
       (∀ c, s.head? = some c → nameChar c = false ∧ (c == '\\') = false) →
       parseNth (c1 :: c2 :: c3 :: s) = .ok s (2, 1)) ∧
    (∀ (c1 c2 c3 c4 : Char) (s : List Char),
       (c1 = 'e' ∨ c1 = 'E') → (c2 = 'v' ∨ c2 = 'V') → (c3 = 'e' ∨ c3 = 'E') →
       (c4 = 'n' ∨ c4 = 'N') →
       (∀ c, s.head? = some c → nameChar c = false ∧ (c == '\\') = false) →
       parseNth (c1 :: c2 :: c3 :: c4 :: s) = .ok s (2, 0)) ∧
    (∀ (ds : List Char) (c : Char) (s : List Char),
       ds ≠ [] → (∀ d ∈ ds, isDigit d = true) →
       isDigit c = false → (c == 'n') = false → (c == 'N') = false →
       digitsVal ds ≤ 9223372036854775807 →
       parseNth (ds ++ c :: s) = .ok (c :: s) (0, (digitsVal ds : Int)) ∧
       parseNth ('+' :: (ds ++ c :: s)) = .ok (c :: s) (0, (digitsVal ds : Int)) ∧
       parseNth ('-' :: (ds ++ c :: s)) = .ok (c :: s) (0, -(digitsVal ds : Int))) ∧
    (∀ (m c0 : Char) (s t : List Char),
       (m = 'n' ∨ m = 'N') →
       (skipWhitespace s).2 = c0 :: t → (c0 == '+') = false → (c0 == '-') = false →
       parseNth (m :: s) = .ok (c0 :: t) (1, 0) ∧
       parseNth ('+' :: m :: s) = .ok (c0 :: t) (1, 0) ∧
       parseNth ('-' :: m :: s) = .ok (c0 :: t) (-1, 0)) ∧
    (∀ (ds ds2 : List Char) (m c : Char) (s : List Char),
       (m = 'n' ∨ m = 'N') → ds ≠ [] → ds2 ≠ [] →
       (∀ d ∈ ds, isDigit d = true) → (∀ d ∈ ds2, isDigit d = true) →
       isDigit c = false → (c == '+') = false → (c == '-') = false →
       goSpace c = false → (c == '/') = false →
       digitsVal ds ≤ 9223372036854775807 → digitsVal ds2 ≤ 9223372036854775807 →
       parseNth (ds ++ (m :: '+' :: (ds2 ++ (c :: s)))) =
         .ok (c :: s) ((digitsVal ds : Int), (digitsVal ds2 : Int)) ∧
       parseNth (ds ++ (m :: '-' :: (ds2 ++ (c :: s)))) =
         .ok (c :: s) ((digitsVal ds : Int), -(digitsVal ds2 : Int)) ∧
       parseNth (ds ++ (m :: c :: s)) = .ok (c :: s) ((digitsVal ds : Int), 0)) ∧
    (∀ (ds2 : List Char) (m c : Char) (s : List Char),
       (m = 'n' ∨ m = 'N') → ds2 ≠ [] →
       (∀ d ∈ ds2, isDigit d = true) → isDigit c = false →
       digitsVal ds2 ≤ 9223372036854775807 →
       (parseNth (m :: '+' :: (ds2 ++ (c :: s))) =
          .ok (c :: s) (1, (digitsVal ds2 : Int)) ∧
        parseNth (m :: '-' :: (ds2 ++ (c :: s))) =
          .ok (c :: s) (1, -(digitsVal ds2 : Int))) ∧
       (parseNth ('+' :: m :: '+' :: (ds2 ++ (c :: s))) =
          .ok (c :: s) (1, (digitsVal ds2 : Int)) ∧
        parseNth ('+' :: m :: '-' :: (ds2 ++ (c :: s))) =
          .ok (c :: s) (1, -(digitsVal ds2 : Int))) ∧
       (parseNth ('-' :: m :: '+' :: (ds2 ++ (c :: s))) =
          .ok (c :: s) (-1, (digitsVal ds2 : Int)) ∧
        parseNth ('-' :: m :: '-' :: (ds2 ++ (c :: s))) =
          .ok (c :: s) (-1, -(digitsVal ds2 : Int)))) := by
  refine ⟨?_, ?_, ?_, ?_, ?_, ?_⟩
  · intro c1 c2 c3 s h1 h2 h3 hs
    have n1 : nameChar c1 = true := by rcases h1 with rfl | rfl <;> decide
    have n2 : nameChar c2 = true := by rcases h2 with rfl | rfl <;> decide
    have n3 : nameChar c3 = true := by rcases h3 with rfl | rfl <;> decide
    have hpn : parseName ([c1, c2, c3] ++ s) = .ok s (String.mk [c1, c2, c3]) := by
      refine parseName_word _ _ (by simp) ?_ hs
      intro e he
      simp only [List.mem_cons, List.not_mem_nil, or_false] at he
      rcases he with rfl | rfl | rfl
      exacts [n1, n2, n3]
    simp only [List.cons_append, List.nil_append] at hpn
    have b1 : (c1 == '-') = false := by rcases h1 with rfl | rfl <;> decide
    have b2 : (c1 == '+') = false := by rcases h1 with rfl | rfl <;> decide
    have b3 : isDigit c1 = false := by rcases h1 with rfl | rfl <;> decide
    have b4 : (c1 == 'n' || c1 == 'N') = false := by rcases h1 with rfl | rfl <;> decide
    have b5 : (c1 == 'o' || c1 == 'O' || c1 == 'e' || c1 == 'E') = true := by
      rcases h1 with rfl | rfl <;> decide
    have l1 : lowerChar c1 = 'o' := by rcases h1 with rfl | rfl <;> decide
    have l2 : lowerChar c2 = 'd' := by rcases h2 with rfl | rfl <;> decide
    have l3 : lowerChar c3 = 'd' := by rcases h3 with rfl | rfl <;> decide
    have hid : toLowerASCII (String.mk [c1, c2, c3]) = "odd" := by
      show String.mk ([c1, c2, c3].map lowerChar) = "odd"
      simp only [List.map_cons, List.map_nil]
      rw [l1, l2, l3]
    rw [parseNth]
    simp [b1, b2, b3, b4, b5, hpn, hid]
  · intro c1 c2 c3 c4 s h1 h2 h3 h4 hs
    have n1 : nameChar c1 = true := by rcases h1 with rfl | rfl <;> decide
    have n2 : nameChar c2 = true := by rcases h2 with rfl | rfl <;> decide
    have n3 : nameChar c3 = true := by rcases h3 with rfl | rfl <;> decide
    have n4 : nameChar c4 = true := by rcases h4 with rfl | rfl <;> decide
    have hpn : parseName ([c1, c2, c3, c4] ++ s) = .ok s (String.mk [c1, c2, c3, c4]) := by
      refine parseName_word _ _ (by simp) ?_ hs
      intro e he
      simp only [List.mem_cons, List.not_mem_nil, or_false] at he
      rcases he with rfl | rfl | rfl | rfl
      exacts [n1, n2, n3, n4]
    simp only [List.cons_append, List.nil_append] at hpn
    have b1 : (c1 == '-') = false := by rcases h1 with rfl | rfl <;> decide
    have b2 : (c1 == '+') = false := by rcases h1 with rfl | rfl <;> decide
    have b3 : isDigit c1 = false := by rcases h1 with rfl | rfl <;> decide
    have b4 : (c1 == 'n' || c1 == 'N') = false := by rcases h1 with rfl | rfl <;> decide
    have b5 : (c1 == 'o' || c1 == 'O' || c1 == 'e' || c1 == 'E') = true := by
      rcases h1 with rfl | rfl <;> decide
    have l1 : lowerChar c1 = 'e' := by rcases h1 with rfl | rfl <;> decide
    have l2 : lowerChar c2 = 'v' := by rcases h2 with rfl | rfl <;> decide
    have l3 : lowerChar c3 = 'e' := by rcases h3 with rfl | rfl <;> decide
    have l4 : lowerChar c4 = 'n' := by rcases h4 with rfl | rfl <;> decide
    have hid : toLowerASCII (String.mk [c1, c2, c3, c4]) = "even" := by
      show String.mk ([c1, c2, c3, c4].map lowerChar) = "even"
      simp only [List.map_cons, List.map_nil]
      rw [l1, l2, l3, l4]
    rw [parseNth]
    simp [b1, b2, b3, b4, b5, hpn, hid]
  · intro ds c s hne hall hcdig hn hN hbound
    obtain ⟨d0, ds', rfl⟩ : ∃ d0 ds', ds = d0 :: ds' := by
      cases ds with
      | nil => exact absurd rfl hne
      | cons d0 ds' => exact ⟨d0, ds', rfl⟩
    have hd0 : isDigit d0 = true := hall d0 (by simp)
    have b1 : (d0 == '-') = false := isDigit_ne d0 '-' hd0 (by decide)
    have b2 : (d0 == '+') = false := isDigit_ne d0 '+' hd0 (by decide)
    have hpi : parseInteger ((d0 :: ds') ++ c :: s) = .ok (c :: s) (digitsVal (d0 :: ds')) := by
      refine parseInteger_digits _ _ hne hall ?_ hbound
      intro e he
      rw [List.head?_cons, Option.some.injEq] at he
      rw [← he]
      exact hcdig
    simp only [List.cons_append] at hpi
    have hra : ∀ A : Int, nthReadA A (c :: s) = .ok (c :: s) (0, A) := by
      intro A
      rw [nthReadA]
      simp [hn, hN]
    have key : nthPositiveA (d0 :: (ds' ++ c :: s)) =
        .ok (c :: s) (0, (digitsVal (d0 :: ds') : Int)) := by
      rw [nthPositiveA]
      simp only [hd0, if_true, hpi]
      exact hra _
    refine ⟨?_, ?_, ?_⟩
    · show parseNth (d0 :: (ds' ++ c :: s)) = _
      rw [parseNth]
      simp only [b1, b2, hd0, Bool.false_eq_true, if_false, if_true]
      exact key
    · show parseNth ('+' :: (d0 :: (ds' ++ c :: s))) = _
      rw [parseNth]
      simp only []
      exact key
    · show parseNth ('-' :: (d0 :: (ds' ++ c :: s))) = _
      rw [parseNth]
      simp only []
      rw [nthNegativeA]
      simp only [hd0, if_true, hpi]
      exact hra _
  · intro m c0 s t hm hsw hp hminus
    have keyA : ∀ A : Int, nthReadN A s = .ok (c0 :: t) (A, 0) := by
      intro A
      rw [nthReadN, hsw]
      simp [hp, hminus]
    have b1 : (m == '-') = false := by rcases hm with rfl | rfl <;> decide
    have b2 : (m == '+') = false := by rcases hm with rfl | rfl <;> decide
    have b3 : isDigit m = false := by rcases hm with rfl | rfl <;> decide
    have b4 : (m == 'n' || m == 'N') = true := by rcases hm with rfl | rfl <;> decide
    refine ⟨?_, ?_, ?_⟩
    · rw [parseNth]
      simp only [b1, b2, b3, b4, Bool.false_eq_true, if_false, if_true]
      exact keyA 1
    · rw [parseNth]
      simp only []
      rw [nthPositiveA]
      simp only [b3, b4, Bool.false_eq_true, if_false, if_true]
      exact keyA 1
    · rw [parseNth]
      simp only []
      rw [nthNegativeA]
      simp only [b3, b4, Bool.false_eq_true, if_false, if_true]
      exact keyA (-1)
  · intro ds ds2 m c s hm hne hne2 hall hall2 hcdig hcplus hcminus hgo hslash hb hb2
    obtain ⟨d0, ds', rfl⟩ : ∃ d0 ds', ds = d0 :: ds' := by
      cases ds with
      | nil => exact absurd rfl hne
      | cons d0 ds' => exact ⟨d0, ds', rfl⟩
    obtain ⟨d20, ds2', rfl⟩ : ∃ d20 ds2', ds2 = d20 :: ds2' := by
      cases ds2 with
      | nil => exact absurd rfl hne2
      | cons d20 ds2' => exact ⟨d20, ds2', rfl⟩
    have hd0 : isDigit d0 = true := hall d0 (by simp)
    have hd20 : isDigit d20 = true := hall2 d20 (by simp)
    have b1 : (d0 == '-') = false := isDigit_ne d0 '-' hd0 (by decide)
    have b2 : (d0 == '+') = false := isDigit_ne d0 '+' hd0 (by decide)
    have hmd : isDigit m = false := by rcases hm with rfl | rfl <;> decide
    have hmn : (m == 'n' || m == 'N') = true := by rcases hm with rfl | rfl <;> decide
    have hpiT : ∀ tail : List Char,
        parseInteger ((d0 :: ds') ++ m :: tail) = .ok (m :: tail) (digitsVal (d0 :: ds')) := by
      intro tail
      refine parseInteger_digits _ _ hne hall ?_ hb
      intro e he
      rw [List.head?_cons, Option.some.injEq] at he
      rw [← he]
      exact hmd
    have hpi2 : parseInteger ((d20 :: ds2') ++ c :: s) = .ok (c :: s) (digitsVal (d20 :: ds2')) := by
      refine parseInteger_digits _ _ hne2 hall2 ?_ hb2
      intro e he
      rw [List.head?_cons, Option.some.injEq] at he
      rw [← he]
      exact hcdig
    simp only [List.cons_append] at hpi2
    have hswd : skipWhitespace (d20 :: (ds2' ++ c :: s)) = (false, d20 :: (ds2' ++ c :: s)) :=
      skipWhitespace_noskip d20 _ (isDigit_goSpace d20 hd20) (isDigit_ne d20 '/' hd20 (by decide))
    have hra : ∀ (tail : List Char) (A : Int), nthReadA A (m :: tail) = nthReadN A tail := by
      intro tail A
      rw [nthReadA]
      simp [hmn]
    have keyP : ∀ A : Int, nthReadN A ('+' :: (d20 :: (ds2' ++ c :: s))) =
        .ok (c :: s) (A, (digitsVal (d20 :: ds2') : Int)) := by
      intro A
      rw [nthReadN, skipWhitespace_noskip '+' _ (by decide) (by decide)]
      simp only []
      rw [if_pos (by rfl)]
      rw [hswd]
      simp only [hpi2]
    have keyM : ∀ A : Int, nthReadN A ('-' :: (d20 :: (ds2' ++ c :: s))) =
        .ok (c :: s) (A, -(digitsVal (d20 :: ds2') : Int)) := by
      intro A
      rw [nthReadN, skipWhitespace_noskip '-' _ (by decide) (by decide)]
      simp only []
      rw [if_neg (by decide), if_pos (by rfl)]
      rw [hswd]
      simp only [hpi2]
    have key0 : ∀ A : Int, nthReadN A (c :: s) = .ok (c :: s) (A, 0) := by
      intro A
      rw [nthReadN, skipWhitespace_noskip c s hgo hslash]
      simp [hcplus, hcminus]
    have start : ∀ tail : List Char,
        parseNth (d0 :: (ds' ++ m :: tail)) = nthReadN (digitsVal (d0 :: ds') : Int) tail := by
      intro tail
      have hpiX := hpiT tail
      simp only [List.cons_append] at hpiX
      rw [parseNth]
      simp only [b1, b2, hd0, Bool.false_eq_true, if_false, if_true]
      rw [nthPositiveA]
      simp only [hd0, if_true, hpiX]
      exact hra tail _
    refine ⟨?_, ?_, ?_⟩
    · simp only [List.cons_append]
      rw [start ('+' :: (d20 :: (ds2' ++ c :: s)))]
      exact keyP _
    · simp only [List.cons_append]
      rw [start ('-' :: (d20 :: (ds2' ++ c :: s)))]
      exact keyM _
    · simp only [List.cons_append]
      rw [start (c :: s)]
      exact key0 _
  · intro ds2 m c s hm hne2 hall2 hcdig hb2
    obtain ⟨d20, ds2', rfl⟩ : ∃ d20 ds2', ds2 = d20 :: ds2' := by
      cases ds2 with
      | nil => exact absurd rfl hne2
      | cons d20 ds2' => exact ⟨d20, ds2', rfl⟩
    have hd20 : isDigit d20 = true := hall2 d20 (by simp)
    have hpi2 : parseInteger ((d20 :: ds2') ++ c :: s) = .ok (c :: s) (digitsVal (d20 :: ds2')) := by
      refine parseInteger_digits _ _ hne2 hall2 ?_ hb2
      intro e he
      rw [List.head?_cons, Option.some.injEq] at he
      rw [← he]
      exact hcdig
    simp only [List.cons_append] at hpi2
    have hswd : skipWhitespace (d20 :: (ds2' ++ c :: s)) = (false, d20 :: (ds2' ++ c :: s)) :=
      skipWhitespace_noskip d20 _ (isDigit_goSpace d20 hd20) (isDigit_ne d20 '/' hd20 (by decide))
    have keyP : ∀ A : Int, nthReadN A ('+' :: (d20 :: (ds2' ++ c :: s))) =
        .ok (c :: s) (A, (digitsVal (d20 :: ds2') : Int)) := by
      intro A
      rw [nthReadN, skipWhitespace_noskip '+' _ (by decide) (by decide)]
      simp only []
      rw [if_pos (by rfl)]
      rw [hswd]
      simp only [hpi2]
    have keyM : ∀ A : Int, nthReadN A ('-' :: (d20 :: (ds2' ++ c :: s))) =
        .ok (c :: s) (A, -(digitsVal (d20 :: ds2') : Int)) := by
      intro A
      rw [nthReadN, skipWhitespace_noskip '-' _ (by decide) (by decide)]
      simp only []
      rw [if_neg (by decide), if_pos (by rfl)]
      rw [hswd]
      simp only [hpi2]
    have b1 : (m == '-') = false := by rcases hm with rfl | rfl <;> decide
    have b2 : (m == '+') = false := by rcases hm with rfl | rfl <;> decide
    have b3 : isDigit m = false := by rcases hm with rfl | rfl <;> decide
    have b4 : (m == 'n' || m == 'N') = true := by rcases hm with rfl | rfl <;> decide
    have e1 : ∀ tail : List Char, parseNth (m :: tail) = nthReadN 1 tail := by
      intro tail
      rw [parseNth]
      simp only [b1, b2, b3, b4, Bool.false_eq_true, if_false, if_true]
    have e2 : ∀ tail : List Char, parseNth ('+' :: m :: tail) = nthReadN 1 tail := by
      intro tail
      rw [parseNth]
      simp only []
      rw [nthPositiveA]
      simp only [b3, b4, Bool.false_eq_true, if_false, if_true]
      rfl
    have e3 : ∀ tail : List Char, parseNth ('-' :: m :: tail) = nthReadN (-1) tail := by
      intro tail
      rw [parseNth]
      simp only []
      rw [nthNegativeA]
      simp only [b3, b4, Bool.false_eq_true, if_false, if_true]
      rfl
    refine ⟨⟨?_, ?_⟩, ⟨?_, ?_⟩, ⟨?_, ?_⟩⟩
    · simp only [List.cons_append]
      rw [e1]
      exact keyP 1
    · simp only [List.cons_append]
      rw [e1]
      exact keyM 1
    · simp only [List.cons_append]
      rw [e2]
      exact keyP 1
    · simp only [List.cons_append]
      rw [e2]
      exact keyM 1
    · simp only [List.cons_append]
      rw [e3]
      exact keyP (-1)
    · simp only [List.cons_append]
      rw [e3]
      exact keyM (-1)

/-- C4 witness: concrete nth-child arguments: odd, EveN, 5), -12), n),
-N), 2n+3), 2N-7), 2n), n+3), -n+2) and +N-4) all parse to the predicted
(a,b) pairs. -/
theorem C4_parseNth_grammar_witness :
    parseNth ("odd)".data) = .ok (")".data) (2, 1) ∧
    parseNth ("EveN)".data) = .ok (")".data) (2, 0) ∧
    parseNth ("5)".data) = .ok (")".data) (0, 5) ∧
    parseNth ("-12)".data) = .ok (")".data) (0, -12) ∧
    parseNth ("n)".data) = .ok (")".data) (1, 0) ∧
    parseNth ("-N)".data) = .ok (")".data) (-1, 0) ∧
    parseNth ("2n+3)".data) = .ok (")".data) (2, 3) ∧
    parseNth ("2N-7)".data) = .ok (")".data) (2, -7) ∧
    parseNth ("2n)".data) = .ok (")".data) (2, 0) ∧
    parseNth ("n+3)".data) = .ok (")".data) (1, 3) ∧
    parseNth ("-n+2)".data) = .ok (")".data) (-1, 2) ∧
    parseNth ("+N-4)".data) = .ok (")".data) (1, -4) := by
  obtain ⟨h1, h2, h3, h4, h5, h6⟩ := C4_parseNth_grammar
  have hbound : ∀ c, ([')'] : List Char).head? = some c →
      nameChar c = false ∧ (c == '\\') = false := by
    intro c hc
    rw [List.head?_cons, Option.some.injEq] at hc
    rw [← hc]
    exact ⟨by decide, by decide⟩
  have hone : ∀ d : Char, ∀ x : Char, d ∈ [x] → d = x := by
    intro d x hd
    rw [List.mem_singleton] at hd
    exact hd
  refine ⟨?_, ?_, ?_, ?_, ?_, ?_, ?_, ?_, ?_, ?_, ?_, ?_⟩
  · exact h1 'o' 'd' 'd' [')'] (Or.inl rfl) (Or.inl rfl) (Or.inl rfl) hbound
  · exact h2 'E' 'v' 'e' 'N' [')'] (Or.inr rfl) (Or.inl rfl) (Or.inl rfl) (Or.inr rfl) hbound
  · exact (h3 ['5'] ')' [] (by simp) (fun d hd => by rw [hone d '5' hd]; decide)
      (by decide) (by decide) (by decide) (by decide)).1
  · exact (h3 ['1', '2'] ')' [] (by simp)
      (fun d hd => by
        simp only [List.mem_cons, List.not_mem_nil, or_false] at hd
        rcases hd with rfl | rfl <;> decide)
      (by decide) (by decide) (by decide) (by decide)).2.2
  · exact (h4 'n' ')' [')'] [] (Or.inl rfl) (by rfl) (by decide) (by decide)).1
  · exact (h4 'N' ')' [')'] [] (Or.inr rfl) (by rfl) (by decide) (by decide)).2.2
  · exact (h5 ['2'] ['3'] 'n' ')' [] (Or.inl rfl) (by simp) (by simp)
      (fun d hd => by rw [hone d '2' hd]; decide) (fun d hd => by rw [hone d '3' hd]; decide)
      (by decide) (by decide) (by decide) (by decide) (by decide) (by decide) (by decide)).1
  · exact (h5 ['2'] ['7'] 'N' ')' [] (Or.inr rfl) (by simp) (by simp)
      (fun d hd => by rw [hone d '2' hd]; decide) (fun d hd => by rw [hone d '7' hd]; decide)
      (by decide) (by decide) (by decide) (by decide) (by decide) (by decide) (by decide)).2.1
  · exact (h5 ['2'] ['9'] 'n' ')' [] (Or.inl rfl) (by simp) (by simp)
      (fun d hd => by rw [hone d '2' hd]; decide) (fun d hd => by rw [hone d '9' hd]; decide)
      (by decide) (by decide) (by decide) (by decide) (by decide) (by decide) (by decide)).2.2
  · exact (h6 ['3'] 'n' ')' [] (Or.inl rfl) (by simp)
      (fun d hd => by rw [hone d '3' hd]; decide) (by decide) (by decide)).1.1
  · exact (h6 ['2'] 'n' ')' [] (Or.inl rfl) (by simp)
      (fun d hd => by rw [hone d '2' hd]; decide) (by decide) (by decide)).2.2.1
  · exact (h6 ['4'] 'N' ')' [] (Or.inr rfl) (by simp)
      (fun d hd => by rw [hone d '4' hd]; decide) (by decide) (by decide)).2.1.2

end Cascadia
